import Mathlib

/-!
Verification of the clinical-note annotation pipeline orchestrator
(IDEA4RC-NLP-ClinicalWebAnnotation).

The Python source is shallowly embedded: Python dicts become ordered
association lists (`List (key × value)`), Python strings become `String`
or `List Char` where character-level reasoning is needed, fallible HTTP
handlers become `Except`-valued functions, and float scores that are
only ever compared (never rounded through binary floating point in a way
that affects an order tested here) become `Rat`.

The file is organised as: all definitions first, then all theorems.
-/

namespace Idea4rc

/-! # Definitions -/

/-! ## Session store (backend/routes/sessions.py) -/

/-- A clinical note as stored in a session file (only the fields used by
the metadata-patch and prompt-type routes are embedded). -/
structure Note where
  note_id : String
  report_type : String
deriving DecidableEq, Repr

/-- `annotations[note_id][prompt_type] -> annotation`, embedded as nested
insertion-ordered association lists (Python dict semantics). -/
abbrev AnnMap (A : Type) := List (String × List (String × A))

/-- `report_type_mapping : report_type -> list of prompt types`. -/
abbrev Mapping := List (String × List String)

/-- The session fields touched by `update_session_metadata` and
`remove_prompt_types`. -/
structure Session (A : Type) where
  name : String
  notes : List Note
  annotations : AnnMap A
  prompt_types : List String
  report_type_mapping : Option Mapping
deriving DecidableEq, Repr

/-- The `note_report_types` dict of `update_session_metadata`
(sessions.py:201-207): iterate the notes, overwrite on duplicate id, skip
empty ids; `note_report_types.get(note_id, '')` then yields the report
type of the last note with the given non-empty id, else `''`. -/
def reportTypeOf (notes : List Note) (nid : String) : String :=
  notes.foldl
    (fun acc n => if n.note_id = nid ∧ n.note_id ≠ "" then n.report_type else acc) ""

/-- `allowed = set(update.report_type_mapping.get(rt, []))` (sessions.py:213). -/
def allowedFor (m : Mapping) (rt : String) : List String :=
  (m.lookup rt).getD []

/-- `update_session_metadata` (sessions.py:183-222), the PATCH handler body
after the session has been loaded.  `name?`/`mapping?` are the two optional
fields of `SessionMetadataUpdate`.  When a mapping is supplied the handler
sets `prompt_types` to the union of the mapping's value lists (a Python
`set`; its iteration order is unspecified, so the union is embedded as a
deduplicated flattening — membership is what the routes consume) and
deletes every annotation whose prompt type is not allowed for its note's
report type. -/
def updateSessionMetadata (s : Session A) (name? : Option String)
    (mapping? : Option Mapping) : Session A :=
  let s1 := match name? with
    | some n => { s with name := n }
    | none => s
  match mapping? with
  | none => s1
  | some m =>
      { s1 with
        report_type_mapping := some m
        prompt_types := ((m.map Prod.snd).flatten).dedup
        annotations := s1.annotations.map fun p =>
          (p.1, p.2.filter fun pa =>
            pa.1 ∈ allowedFor m (reportTypeOf s1.notes p.1)) }

/-- Stored annotation for a (note, prompt) pair, read off the nested dicts. -/
def annLookup (s : Session A) (nid pt : String) : Option A :=
  (s.annotations.lookup nid).bind fun anns => anns.lookup pt

/-- HTTP errors surfaced by the embedded route handlers. -/
inductive HttpErr where
  | badRequest (detail : String)
  | notFound (detail : String)
deriving DecidableEq, Repr

/-- `remove_prompt_types` (sessions.py:312-345): filter the requested
prompt types out of `prompt_types`; 400 if nothing would remain (the
handler raises before `_save_session`, so an error leaves the stored
session unchanged); otherwise delete the removed prompt types from every
note's annotations and save. -/
def removePromptTypes (s : Session A) (toRemove : List String) :
    Except HttpErr (Session A) :=
  let updated := s.prompt_types.filter fun pt => pt ∉ toRemove
  if updated = [] then
    .error (.badRequest
      "Cannot remove all prompt types. A session must have at least one prompt type.")
  else
    .ok { s with
          prompt_types := updated
          annotations := s.annotations.map fun p =>
            (p.1, p.2.filter fun pa => pa.1 ∉ toRemove) }

/-- A concrete session used by the witnesses: one pathology note with a
grading and a gender annotation. -/
def exSession : Session Nat :=
  { name := "s"
    notes := [⟨"N1", "Pathology"⟩]
    annotations := [("N1", [("biopsygrading-int", 7), ("gender-int", 9)])]
    prompt_types := ["biopsygrading-int", "gender-int"]
    report_type_mapping := none }

/-! ## Session save (backend/routes/sessions.py:64-75) -/

/-- File-system primitives a save can be decomposed into. File contents are
character lists. -/
inductive FsOp where
  | write (path : String) (contents : List Char)
  | rename (src dst : String)

/-- A file system: path to contents. -/
def Fs : Type := String → Option (List Char)

/-- Effect of one completed operation. `write` truncates and replaces;
`rename` atomically moves `src` over `dst`. -/
def applyOp (fs : Fs) : FsOp → Fs
  | .write p c => fun q => if q = p then some c else fs q
  | .rename src dst => fun q =>
      if q = dst then fs src else if q = src then none else fs q

/-- States observable when execution crashes *inside* one operation: an
interrupted `write` has truncated the target and appended some prefix of
the new contents; a `rename` is atomic (no intermediate state). -/
def midStates (fs : Fs) : FsOp → List Fs
  | .write p c => c.inits.map fun pre => fun q => if q = p then some pre else fs q
  | .rename _ _ => []

/-- All file-system states observable if a run of `ops` crashes at any
point (before, inside, or between operations). -/
def crashStates (fs : Fs) : List FsOp → List Fs
  | [] => [fs]
  | op :: ops => fs :: (midStates fs op ++ crashStates (applyOp fs op) ops)

/-- `_save_session` (sessions.py:64-75): `open(session_file, 'w')` +
`json.dump` — the serialized session is written **directly** to
`sessions/{session_id}.json`.  There is no temporary file and no rename. -/
def saveSessionOps (sessionFile : String) (contents : List Char) : List FsOp :=
  [.write sessionFile contents]

/-- Modelled from the spec: "Atomic write: serialize → write to a temp path
→ rename."  This is the procedure C4 claims `_save_session` performs; it
does not occur in the source, which writes directly (`saveSessionOps`). -/
def atomicSaveOps (tmpFile sessionFile : String) (contents : List Char) :
    List FsOp :=
  [.write tmpFile contents, .rename tmpFile sessionFile]

/-- C4 as stated, over the source's save procedure: any crash state of a
save leaves the session file with either its previous contents or the
complete new contents — no partially written file is observable. -/
def saveSessionCrashSafe : Prop :=
  ∀ (fs : Fs) (file : String) (c : List Char) (st : Fs),
    st ∈ crashStates fs (saveSessionOps file c) →
    st file = fs file ∨ st file = some c

/-- The initial file system of the C4 counterexample: the session file
already holds `"OLD"`. -/
def fs0 : Fs := fun q => if q = "s.json" then some "OLD".toList else none

/-! ## Job runtime status lifecycle (pipeline/api/app.py) -/

/-- One row written to `pipeline_status` by `update_status`. -/
structure StatusWrite where
  step : String
  progress : Nat
  result : Option String
deriving DecidableEq, Repr

/-- The five background-job shapes of the pipeline API. -/
inductive JobShape where
  | qualityCheck | linkRows | fullPipeline | discoverability | continueFromSession
deriving DecidableEq, Repr

/-- The non-terminal `update_status` checkpoints each runner writes, in
program order (app.py:247-277, 463-473, 526-581, 990-998, 1276-1341). -/
def checkpoints : JobShape → List StatusWrite
  | .qualityCheck =>
      [⟨"Initializing", 0, none⟩, ⟨"Loading data", 10, none⟩,
       ⟨"Running quality check", 60, none⟩, ⟨"Saving results", 90, none⟩]
  | .linkRows =>
      [⟨"Initializing", 0, none⟩, ⟨"Loading data", 10, none⟩,
       ⟨"Linking rows", 60, none⟩]
  | .fullPipeline =>
      [⟨"Initializing", 0, none⟩, ⟨"Loading data", 10, none⟩,
       ⟨"Processing free texts", 30, none⟩, ⟨"Linking rows", 60, none⟩,
       ⟨"Performing data quality checks", 90, none⟩]
  | .discoverability =>
      [⟨"Initializing", 5, none⟩, ⟨"Loading data", 10, none⟩,
       ⟨"Computing discoverability", 70, none⟩]
  | .continueFromSession =>
      [⟨"Fetching validated NLP data", 10, none⟩,
       ⟨"Loading structured data", 20, none⟩, ⟨"Merging data", 30, none⟩,
       ⟨"Linking rows", 50, none⟩, ⟨"Running quality checks", 80, none⟩]

/-- The terminal write of a successful run (`update_status(task_id,
"Completed", 100, ...)`); the discoverability runner stores the produced
output path as `result`, the others store fixed messages. -/
def completedWrite : JobShape → String → StatusWrite
  | .qualityCheck, _ => ⟨"Completed", 100, some "Quality-check finished."⟩
  | .linkRows, _ => ⟨"Completed", 100, some "Link-rows finished."⟩
  | .fullPipeline, _ => ⟨"Completed", 100, some "Pipeline completed successfully!"⟩
  | .discoverability, res => ⟨"Completed", 100, some res⟩
  | .continueFromSession, _ =>
      ⟨"Completed", 100, some "Pipeline completed with validated NLP data"⟩

/-- Whether the runner has an `except CancelledError` clause writing
`Cancelled`; the discoverability runner (app.py:983-1011) has only
`except Exception`, which writes `Failed`. -/
def hasCancelHandler : JobShape → Bool
  | .discoverability => false
  | _ => true

/-- How a run ends: normally (carrying the dynamic result for the shapes
that store one), by `CancelledError`, or by any other exception; the `k`
counts the checkpoint writes performed before the exception, `msg` is
`str(exc)`. -/
inductive JobOutcome where
  | success (res : String)
  | cancelledAfter (k : Nat) (msg : String)
  | failedAfter (k : Nat) (msg : String)

/-- Number of checkpoints written before the terminal write. -/
def stepsDone (sh : JobShape) : JobOutcome → Nat
  | .success _ => (checkpoints sh).length
  | .cancelledAfter k _ => k
  | .failedAfter k _ => k

/-- The terminal `update_status` write of a run. -/
def terminalWrite (sh : JobShape) : JobOutcome → StatusWrite
  | .success res => completedWrite sh res
  | .cancelledAfter _ msg =>
      if hasCancelHandler sh then ⟨"Cancelled", 100, some msg⟩
      else ⟨"Failed", 100, some msg⟩
  | .failedAfter _ msg => ⟨"Failed", 100, some msg⟩

/-- The full sequence of `pipeline_status` writes for one job: the
endpoint's initial `("Queued", 0)` row, the checkpoints reached, then the
terminal write from the runner's `try/except` chain. -/
def statusTrace (sh : JobShape) (o : JobOutcome) : List StatusWrite :=
  ⟨"Queued", 0, none⟩ :: ((checkpoints sh).take (stepsDone sh o) ++ [terminalWrite sh o])

/-- `force_kill_task` (app.py:965-977): after the 404 check it always
writes `("Cancelled", 100)` with a message depending on whether the kill
succeeded. -/
def forceKillWrite (killed : Bool) : StatusWrite :=
  ⟨"Cancelled", 100, some (if killed then "Force-killed by user" else "Kill requested")⟩

/-! ## ICD-O-3 candidate selection (backend/routes/annotate.py:1344-1437) -/

/-- One ranked dictionary candidate attached to an annotation.  The float
`match_score` is only ever copied by the selection handler, so its type is
a parameter. -/
structure Candidate (σ : Type) where
  query_code : String
  morphology_code : Option String
  topography_code : Option String
  name : Option String
  match_score : Option σ
  match_method : Option String
deriving DecidableEq, Repr

/-- The `icdo3_code` dict stored on an annotation (the fields the selection
handler reads or writes). -/
structure Icdo3CodeInfo (σ : Type) where
  code : Option String
  query_code : Option String
  morphology_code : Option String
  topography_code : Option String
  description : Option String
  match_score : Option σ
  match_method : Option String
  histology_code : Option String
  behavior_code : Option String
  candidates : List (Candidate σ)
  selected_candidate_index : Option Nat
  user_selected : Bool
deriving DecidableEq, Repr

/-- Python `str.split(sep)` for a single-character separator (used for
`morphology_code.split('/')`). -/
def splitOnChar (sep : Char) : List Char → List (List Char)
  | [] => [[]]
  | c :: cs =>
      let rest := splitOnChar sep cs
      if c = sep then [] :: rest
      else (c :: rest.headD []) :: rest.tail

/-- `select_icdo3_candidate` (annotate.py:1344-1437), from the point where
the annotation has been found; `icdo3? = none` models a missing/falsy
`icdo3_code`.  The route declares `candidate_index` with `ge=0, le=4`, so
the handler only ever runs with `idx ≤ 4`. -/
def selectIcdo3Candidate (icdo3? : Option (Icdo3CodeInfo σ)) (idx : Nat) :
    Except HttpErr (Icdo3CodeInfo σ) :=
  match icdo3? with
  | none => .error (.badRequest "No ICD-O-3 code information available for this annotation")
  | some icdo3 =>
      if icdo3.candidates.isEmpty then
        .error (.badRequest "No ICD-O-3 candidates available for selection")
      else if h : icdo3.candidates.length ≤ idx then
        .error (.badRequest "Invalid candidate index")
      else
        let selected := icdo3.candidates.get ⟨idx, Nat.lt_of_not_le h⟩
        let mc := (selected.morphology_code.getD "").toList
        let histBehav :=
          if mc ≠ [] ∧ mc.contains '/' then
            let parts := splitOnChar '/' mc
            (some (String.mk (parts.headD [])), (parts.get? 1).map String.mk)
          else (icdo3.histology_code, icdo3.behavior_code)
        .ok { icdo3 with
              selected_candidate_index := some idx
              user_selected := true
              code := some selected.query_code
              query_code := some selected.query_code
              morphology_code := selected.morphology_code
              topography_code := selected.topography_code
              description := selected.name
              match_score := selected.match_score
              match_method := some ("user_selected_" ++ selected.match_method.getD "unknown")
              histology_code := histBehav.1
              behavior_code := histBehav.2 }

/-- Concrete ICD-O-3 info used by the C2 witness: two candidates. -/
def exIcdo3 : Icdo3CodeInfo Nat :=
  { code := some "8000/3-C71.7", query_code := some "8000/3-C71.7"
    morphology_code := some "8000/3", topography_code := some "C71.7"
    description := some "Neoplasm, malignant, of brain stem"
    match_score := some 1, match_method := some "exact"
    histology_code := some "8000", behavior_code := some "3"
    candidates :=
      [{ query_code := "8000/3-C71.7", morphology_code := some "8000/3",
         topography_code := some "C71.7",
         name := some "Neoplasm, malignant, of brain stem",
         match_score := some 1, match_method := some "exact" },
       { query_code := "8805/3-C71.7", morphology_code := some "8805/3",
         topography_code := some "C71.7",
         name := some "Undifferentiated sarcoma of brain stem",
         match_score := some 0, match_method := some "combined" }]
    selected_candidate_index := some 0
    user_selected := false }

/-! ## Notes-CSV reconstruction (backend/routes/upload.py:57-104) -/

/-- Python whitespace (`str.strip()` default set, ASCII range — the
uploaded notes CSVs are text). -/
def isPySpace (c : Char) : Bool :=
  c = ' ' ∨ c = '\t' ∨ c = '\n' ∨ c = '\r' ∨ c = '\x0c' ∨ c = '\x0b'

/-- Python `str.strip(chars)`: drop the matching characters from both
ends. -/
def stripWhile (p : Char → Bool) (l : List Char) : List Char :=
  ((l.dropWhile p).reverse.dropWhile p).reverse

/-- The `.strip().strip('"').strip()` cleanup `_parse_csv_with_reconstruction`
applies to every cell. -/
def cleanCell (l : List Char) : List Char :=
  stripWhile isPySpace (stripWhile (fun c => c = '"') (stripWhile isPySpace l))

/-- One data line of `_parse_csv_with_reconstruction` (upload.py:76-99):
strip the line (a stripped-empty line is skipped — `none`), split on `';'`,
then: equal part count ⇒ the parts are the cells; more parts than header
columns ⇒ the leading `excess+1` parts are rejoined with `';'` into the
first (`text`) cell and the remaining parts fill the remaining columns;
fewer ⇒ pad with empty cells.  Every cell then gets the quote/space
cleanup. -/
def parseDataLine (expectedCols : Nat) (line : List Char) :
    Option (List (List Char)) :=
  let line := stripWhile isPySpace line
  if line = [] then none
  else
    let parts := line.splitOn ';'
    if parts.length = expectedCols then
      some (parts.map cleanCell)
    else if expectedCols < parts.length then
      let excess := parts.length - expectedCols
      let textValue := [';'].intercalate (parts.take (excess + 1))
      some ((textValue :: parts.drop (excess + 1)).map cleanCell)
    else
      some ((parts ++ List.replicate (expectedCols - parts.length) []).map cleanCell)

/-! ## ICD-O-3 CSV index (backend/lib/icdo3_csv_indexer.py) -/

/-- One row of the diagnosis-codes CSV (the four indexed columns).  The
fields hold the stripped cell values: `_build_indexes` strips every field
it uses and the matching strategies re-strip the fields they compare. -/
structure CsvRow where
  query : String
  morphology : String
  topography : String
  name : String
deriving DecidableEq, Repr

/-- `query_index` lookup: `_build_indexes` iterates the rows and assigns
`query_index[query] = row` for rows with a non-empty `Query`, so a lookup
returns the last such row. -/
def queryIndexLookup (rows : List CsvRow) (k : String) : Option CsvRow :=
  rows.foldl (fun acc r => if r.query = k ∧ r.query ≠ "" then some r else acc) none

/-- `morphology_index.get(code, [])`: the rows appended under `code`, in
CSV order (rows with an empty `Morphology` are never indexed). -/
def morphologyRows (rows : List CsvRow) (code : String) : List CsvRow :=
  rows.filter fun r => r.morphology = code ∧ r.morphology ≠ ""

/-- `topography_index.get(code, [])`. -/
def topographyRows (rows : List CsvRow) (code : String) : List CsvRow :=
  rows.filter fun r => r.topography = code ∧ r.topography ≠ ""

/-- Python truthiness of an optional string argument. -/
def truthy (o : Option String) : Bool :=
  o.getD "" ≠ ""

/-- `_normalize_text` (lowercase, collapse whitespace, strip) returns a
non-empty string exactly when the input has a non-whitespace character;
`find_top_candidates` only uses the normalization for that emptiness
test. -/
def normalizeNonEmpty (t : String) : Bool :=
  t.toList.any fun c => !(isPySpace c)

/-- A `(row, score, method)` entry of `candidates_dict`.  Scores are
embedded as rationals: every score the strategies produce is a decimal
constant or capped by one (`min(_, 0.75)` etc.), and the only float
comparison the ranking relies on is between such values. -/
abbrev CandEntry := CsvRow × Rat × String

/-- `if key and key not in candidates_dict: candidates_dict[key] = v` —
Python dicts preserve insertion order, so the dict is an ordered
association list and a fresh key is appended. -/
def insertIfAbsent (d : List (String × CandEntry)) (k : String) (v : CandEntry) :
    List (String × CandEntry) :=
  if k ≠ "" ∧ (d.lookup k).isNone then d ++ [(k, v)] else d

/-- Strategy 1 (indexer.py:539-542): exact `Query` match, score 1.0. -/
def strat1 (rows : List CsvRow) (qc? : Option String) : List (String × CandEntry) :=
  if truthy qc? then
    match queryIndexLookup rows (qc?.getD "") with
    | some row => [(qc?.getD "", (row, 1, "exact"))]
    | none => []
  else []

/-- Strategy 2 (indexer.py:544-551): rows matching both codes, score 0.9. -/
def strat2 (rows : List CsvRow) (mc? tc? : Option String)
    (d : List (String × CandEntry)) : List (String × CandEntry) :=
  if truthy mc? ∧ truthy tc? then
    (morphologyRows rows (mc?.getD "")).foldl (fun d row =>
      if row.topography = tc?.getD "" then
        insertIfAbsent d row.query (row, 9/10, "combined")
      else d) d
  else d

/-- Strategy 3 (indexer.py:553-565): morphology-code rows, base 0.6 boosted
by topography-text similarity, capped at 0.75. -/
def strat3 (rows : List CsvRow) (mc? tt? : Option String)
    (sim : String → String → Rat) (d : List (String × CandEntry)) :
    List (String × CandEntry) :=
  if truthy mc? then
    (morphologyRows rows (mc?.getD "")).foldl (fun d row =>
      let base : Rat :=
        if truthy tt? then max (6/10) (6/10 + sim (tt?.getD "") row.name * (15/100))
        else 6/10
      insertIfAbsent d row.query (row, min base (75/100), "morphology")) d
  else d

/-- Strategy 4 (indexer.py:567-579): topography-code rows, base 0.5 boosted
by histology-text similarity, capped at 0.65. -/
def strat4 (rows : List CsvRow) (tc? ht? : Option String)
    (sim : String → String → Rat) (d : List (String × CandEntry)) :
    List (String × CandEntry) :=
  if truthy tc? then
    (topographyRows rows (tc?.getD "")).foldl (fun d row =>
      let base : Rat :=
        if truthy ht? then max (5/10) (5/10 + sim (ht?.getD "") row.name * (15/100))
        else 5/10
      insertIfAbsent d row.query (row, min base (65/100), "topography")) d
  else d

/-- Strategy 5 (indexer.py:581-607): fuzzy NAME match over all rows for
each truthy search term, threshold 0.3, score scaled into [0.3, 0.6] and
capped at 0.6; a key already present is skipped (the `continue` at line
598 fires before the score is consulted, so the dict is insert-if-absent
here too). -/
def strat5 (rows : List CsvRow) (ht? tt? : Option String)
    (sim : String → String → Rat) (d : List (String × CandEntry)) :
    List (String × CandEntry) :=
  let terms := (if truthy ht? then [ht?.getD ""] else []) ++
    (if truthy tt? then [tt?.getD ""] else [])
  terms.foldl (fun d term =>
    if normalizeNonEmpty term then
      rows.foldl (fun d row =>
        if sim term row.name ≥ 3/10 then
          insertIfAbsent d row.query (row, min (3/10 + sim term row.name * (3/10)) (6/10), "text")
        else d) d
    else d) d

/-- Invariant carried across strategies 2-5: the dict still starts with
the strategy-1 exact entry, and every other entry scores at most 0.9. -/
def DictInv (k : String) (e : CandEntry) (d : List (String × CandEntry)) : Prop :=
  d.head? = some (k, e) ∧ ∀ p ∈ d.tail, p.2.2.1 ≤ 9/10

/-- Stable insertion into a score-descending list: the new element goes
after every already-placed element with an equal or higher score (the
already-placed elements precede it in the original order, matching the
stability of Python's `sorted(..., reverse=True)`). -/
def insertDescBy (x : CandEntry) : List CandEntry → List CandEntry
  | [] => [x]
  | y :: ys => if y.2.1 ≤ x.2.1 then x :: y :: ys else y :: insertDescBy x ys

/-- Stable sort by score descending (`sorted(candidates_dict.values(),
key=score, reverse=True)`). -/
def sortDescBy : List CandEntry → List CandEntry
  | [] => []
  | x :: xs => insertDescBy x (sortDescBy xs)

/-- `find_top_candidates` (indexer.py:508-616): run the five strategies
over an insertion-ordered dict, sort the values by score descending, and
return the first `n`.  The text-similarity float `_score_text_similarity`
is a parameter `sim`; every place its value flows into a score is capped
below 0.9 by the source's `min(...)` calls, so the results proved here
hold for the source's similarity function in particular. -/
def findTopCandidates (rows : List CsvRow) (sim : String → String → Rat)
    (ht? tt? mc? tc? qc? : Option String) (n : Nat) : List CandEntry :=
  let d := strat5 rows ht? tt? sim
    (strat4 rows tc? ht? sim
      (strat3 rows mc? tt? sim
        (strat2 rows mc? tc?
          (strat1 rows qc?))))
  (sortDescBy (d.map Prod.snd)).take n

/-! ## Per-field evaluation (backend/lib/evaluation_engine.py) -/

/-- Python word characters (`\w`, ASCII range). -/
def isWordChar (c : Char) : Bool :=
  c.isAlphanum || c = '_'

/-- `re.match(r'^\[.*\]$', v)`: `v` is `[`, a newline-free middle, `]`,
optionally followed by one final newline (`$` matches before a final
newline). -/
def matchesBracketed (l : List Char) : Bool :=
  match l with
  | '[' :: rest =>
      let core := if rest.getLast? = some '\n' then rest.dropLast else rest
      core.getLast? == some ']' && !(core.dropLast.contains '\n')
  | _ => false

/-- `is_placeholder_value` (evaluation_engine.py:515-547): empty, bracketed
(checked on the raw value), or — on the lowercased stripped value — one of
the anchored patterns `^(provide|put|select|enter)\s+`,
`^not\s+(specified|available|mentioned|found)$`, `^unknown$`, `^n/a$`,
`^none$`.  Note `"not applicable"` is **not** in the pattern list. -/
def isPlaceholderValue (v : String) : Bool :=
  if v = "" then true
  else
    let vl := stripWhile isPySpace (v.toList.map Char.toLower)
    if matchesBracketed v.toList then true
    else
      (["provide".toList, "put".toList, "select".toList, "enter".toList].any
        fun w =>
          w.isPrefixOf vl &&
            match vl.drop w.length with
            | c :: _ => isPySpace c
            | [] => false) ||
      ("not".toList.isPrefixOf vl &&
        (let rest := vl.drop 3
         rest.takeWhile isPySpace ≠ [] &&
          (let rest' := rest.dropWhile isPySpace
           rest' = "specified".toList || rest' = "available".toList ||
            rest' = "mentioned".toList || rest' = "found".toList))) ||
      vl = "unknown".toList || vl = "n/a".toList || vl = "none".toList

/-- The comparison record built by `compare_field_values` (the Python dict;
`match` is a Lean keyword, so that key is embedded as `matched`). -/
structure FieldCmp where
  expected : String
  predicted : String
  field_type : String
  matched : Bool
  match_method : String
  similarity : Rat
  expected_is_placeholder : Bool
  predicted_is_placeholder : Bool
  note : Option String
deriving DecidableEq, Repr

/-- `compare_field_values` (evaluation_engine.py:705-855).  The
placeholder-handling prefix (lines 724-777) is embedded literally; the
both-have-values comparison (lines 779-855: date normalization,
case-insensitive exact match, TF-IDF cosine similarity — floating-point
code) is the parameter `cmp4`, returning its `(match, match_method,
similarity)`; the theorems below hold for every `cmp4`, hence for the
source's. -/
def compareFieldValues (cmp4 : String → String → String → Bool × String × Rat)
    (expected_value predicted_value field_type : String)
    (expected_annotation_empty : Bool) : FieldCmp :=
  let eph := isPlaceholderValue expected_value
  let pph := isPlaceholderValue predicted_value
  let base : FieldCmp :=
    { expected := expected_value, predicted := predicted_value,
      field_type := field_type, matched := false, match_method := "none",
      similarity := 0, expected_is_placeholder := eph,
      predicted_is_placeholder := pph, note := none }
  if expected_annotation_empty then
    if pph || predicted_value = "" then
      { base with
        matched := true, match_method := "both_empty", similarity := 1,
        note := some "No annotation expected, none provided" }
    else
      { base with
        matched := false, match_method := "false_positive", similarity := 0,
        note := some "Value predicted but no annotation was expected" }
  else if eph && pph then
    { base with
      matched := true, match_method := "both_placeholder", similarity := 1 }
  else if eph && !pph then
    { base with
      matched := true, match_method := "extraction_success", similarity := 1,
      note := some "Value extracted where expected had placeholder" }
  else if !eph && pph then
    { base with
      matched := false, match_method := "extraction_failed", similarity := 0 }
  else
    let r := cmp4 expected_value predicted_value field_type
    { base with matched := r.1, match_method := r.2.1, similarity := r.2.2 }

/-! ## Batch annotation loop (backend/routes/annotate.py:876-1342) -/

/-- Start/finish of the LLM call for the `i`-th processed (note, prompt)
pair. -/
inductive LlmEvent where
  | start (i : Nat)
  | finish (i : Nat)
deriving DecidableEq, Repr

/-- The LLM-call trace of `batch_process`: the handler iterates
`request.note_ids` and the (mapping-filtered) prompt types in two nested
`for` loops and invokes the LLM client **synchronously** inside the loop
body, so each call finishes before the next begins.  `env` is the process
environment: no environment variable is consulted anywhere in the
function (`VLLM_CONCURRENCY` does not occur in the source), so the trace
ignores it; `pairs` is the number of processed (note, prompt) pairs. -/
def batchLlmTrace (_env : String → Option String) (pairs : Nat) : List LlmEvent :=
  (List.range pairs).flatMap fun i => [LlmEvent.start i, LlmEvent.finish i]

/-- Number of in-flight calls after a trace prefix, and the running
maximum. -/
def inFlightFold (acc : Nat × Nat) : LlmEvent → Nat × Nat
  | .start _ => (acc.1 + 1, max acc.2 (acc.1 + 1))
  | .finish _ => (acc.1 - 1, acc.2)

/-- The maximum number of simultaneously in-flight LLM calls over a
trace. -/
def maxInFlight (tr : List LlmEvent) : Nat :=
  (tr.foldl inFlightFold (0, 0)).2

/-- The semaphore limit C9 describes, modelled from the spec: the
`VLLM_CONCURRENCY` environment variable parsed as a natural number,
defaulting to 8. -/
def specSemLimit (env : String → Option String) : Nat :=
  ((env "VLLM_CONCURRENCY").bind String.toNat?).getD 8

/-- C9 as stated, over the embedded batch loop: the per-(note, prompt) LLM
calls run as concurrent tasks filling a `specSemLimit env`-slot semaphore,
so a batch with at least that many pairs reaches the semaphore limit of
simultaneously in-flight calls. -/
def batchConcurrencyClaim : Prop :=
  ∀ (env : String → Option String) (pairs : Nat),
    specSemLimit env ≤ pairs →
    maxInFlight (batchLlmTrace env pairs) = specSemLimit env

/-! ## Absence normalization (backend/lib/annotation_normalizer.py) -/

/-- `\b` before a phrase whose first character is a word character:
satisfied at the string start or after a non-word character (`prev` is the
character preceding the match position). -/
def boundaryOk : Option Char → Bool
  | none => true
  | some c => !(isWordChar c)

/-- `\b` after a phrase whose last character is a word character. -/
def boundaryAfter (l : List Char) : Bool :=
  match l with
  | [] => true
  | c :: _ => !(isWordChar c)

/-- Match a sequence of literal words separated by `\s+` at the head of the
list, returning the remainder.  (The greedy whitespace munch is exact here
because every following word starts with a non-whitespace character.) -/
def matchWordsGap : List (List Char) → List Char → Option (List Char)
  | [], l => some l
  | [w], l => if w.isPrefixOf l then some (l.drop w.length) else none
  | w :: ws, l =>
      if w.isPrefixOf l then
        (let rest := l.drop w.length
         if (rest.takeWhile isPySpace) ≠ [] then
           matchWordsGap ws (rest.dropWhile isPySpace)
         else none)
      else none

/-- Does one of the alternatives (appended to the `pre` words) match here,
followed by a word boundary? -/
def altMatchAt (pre alts : List (List Char)) (l : List Char) : Bool :=
  alts.any fun a =>
    match matchWordsGap (pre ++ [a]) l with
    | some rest => boundaryAfter rest
    | none => false

/-- `re.search` for `\b<pre words>\s+(alt₁|…|altₙ)\b`: try every position,
with the preceding character threaded for the leading boundary. -/
def searchAlt (pre alts : List (List Char)) : Option Char → List Char → Bool
  | prev, [] => boundaryOk prev && altMatchAt pre alts []
  | prev, c :: cs =>
      (boundaryOk prev && altMatchAt pre alts (c :: cs)) ||
        searchAlt pre alts (some c) cs

/-- `\[select\s+(result|value|intent|regimen|reason|where|date)\b` at this
position. -/
def bracketSelectAt (l : List Char) : Bool :=
  if "[select".toList.isPrefixOf l then
    (let rest := l.drop 7
     (rest.takeWhile isPySpace) ≠ [] &&
      ((["result", "value", "intent", "regimen", "reason", "where",
          "date"].map String.toList).any fun a =>
        a.isPrefixOf (rest.dropWhile isPySpace) &&
          boundaryAfter ((rest.dropWhile isPySpace).drop a.length)))
  else false

/-- `re.search` for the `[select …` placeholder pattern. -/
def search6 : List Char → Bool
  | [] => false
  | c :: cs => bracketSelectAt (c :: cs) || search6 cs

/-- The `ABSENCE_PATTERNS` searches over the normalized text `n`. -/
def absenceSearch (n : List Char) : Bool :=
  searchAlt ["not".toList]
    (["specified", "available", "applicable", "mentioned", "present",
      "found"].map String.toList) none n ||
  searchAlt [] ["unknown".toList] none n ||
  searchAlt ["no".toList]
    (["information", "data", "result", "finding", "value"].map
      String.toList) none n ||
  searchAlt ["information".toList, "not".toList] ["available".toList] none n ||
  searchAlt ["not".toList, "available".toList, "in".toList, "the".toList]
    ["note".toList] none n ||
  search6 n ||
  matchesBracketed n

/-- `_is_absence_indicator` (annotation_normalizer.py:62-82): empty text is
absence; otherwise search the lowercased stripped text for any of the
`ABSENCE_PATTERNS`. -/
def isAbsenceIndicator (text : List Char) : Bool :=
  if text = [] then true
  else absenceSearch (stripWhile isPySpace (text.map Char.toLower))

/-- Does the part after the matched colon satisfy `\s*.+$` (with `.` not
matching newlines and `$` also matching before a final newline)?  With a
single optional final newline peeled off, the remainder matches iff
everything up to and including its last newline is whitespace and
something non-empty follows. -/
def tailMatchesCore (r : List Char) : Bool :=
  (r.take (r.length - ((r.reverse.takeWhile fun c => c ≠ '\n').reverse).length)).all
    isPySpace &&
  ((r.reverse.takeWhile fun c => c ≠ '\n').reverse) ≠ []

/-- `\s*.+$` on the text after a candidate label colon. -/
def tailMatches (r : List Char) : Bool :=
  tailMatchesCore (if r.getLast? = some '\n' then r.dropLast else r)

/-- The scan implementing `re.search(r'^(.+?):\s*.+$', text)`: the
non-greedy group takes the shortest newline-free non-empty prefix ending
at a colon whose remainder matches `\s*.+$`; `acc` holds the (reversed)
prefix consumed so far. -/
def extractLabelAux (acc : List Char) : List Char → Option (List Char)
  | [] => none
  | c :: cs =>
      if c = '\n' then none
      else if c = ':' ∧ acc ≠ [] ∧ tailMatches cs then some acc.reverse
      else extractLabelAux (c :: acc) cs

/-- `_extract_label` (annotation_normalizer.py:85-108): the text before the
first viable colon, stripped, unless it is itself an absence indicator. -/
def extractLabel (text : List Char) : Option (List Char) :=
  match extractLabelAux [] text with
  | some lab =>
      if isAbsenceIndicator (stripWhile isPySpace lab) then none
      else some (stripWhile isPySpace lab)
  | none => none

/-- The body of `normalize_absence_indicator` on the already-stripped text:
non-absence text is returned unchanged; absence text becomes
`"Label: Not applicable"` when a label can be extracted, else
`"Not applicable"`. -/
def normalizeCore (text : List Char) : List Char :=
  if !(isAbsenceIndicator text) then text
  else
    match extractLabel text with
    | some label => label ++ ": Not applicable".toList
    | none => "Not applicable".toList

/-- `normalize_absence_indicator` (annotation_normalizer.py:25-59):
empty/whitespace input gives `""`; otherwise the stripped text is
normalized by `normalizeCore`. -/
def normalizeAbsenceIndicator (s : List Char) : List Char :=
  if stripWhile isPySpace s = [] then []
  else normalizeCore (stripWhile isPySpace s)

/-! # Theorems -/

/-! ## Association-list helper lemmas -/

/-- Lookup after filtering on a key predicate: entries whose key fails the
predicate are invisible, the rest are untouched. -/
theorem lookup_filter_keys {β : Type} (l : List (String × β)) (q : String → Bool)
    (k : String) :
    (l.filter fun p => q p.1).lookup k = if q k then l.lookup k else none := by
  induction l with
  | nil => simp
  | cons hd tl ih =>
      obtain ⟨k', v⟩ := hd
      by_cases hk : k = k'
      · subst hk
        by_cases hq : q k
        · simp [List.filter_cons, hq, List.lookup]
        · simp [List.filter_cons, hq, List.lookup, ih]
      · have hbeq : (k == k') = false := by
          simp [hk]
        by_cases hq : q k'
        · simp [List.filter_cons, hq, List.lookup, hbeq, ih]
        · simp [List.filter_cons, hq, List.lookup, hbeq, ih]

/-- Lookup after a key-preserving map over the values. -/
theorem lookup_map_values {β γ : Type} (l : List (String × β))
    (f : String → β → γ) (k : String) :
    (l.map fun p => (p.1, f p.1 p.2)).lookup k = (l.lookup k).map (f k) := by
  induction l with
  | nil => simp
  | cons hd tl ih =>
      obtain ⟨k', v⟩ := hd
      by_cases hk : k = k'
      · subst hk
        simp [List.lookup]
      · have hbeq : (k == k') = false := by
          simp [hk]
        simp [List.lookup, hbeq, ih]

/-- Unfolding `annLookup` when the note's entry is present. -/
theorem annLookup_some {A : Type} (s : Session A) (nid pt : String)
    (anns : List (String × A)) (h : s.annotations.lookup nid = some anns) :
    annLookup s nid pt = anns.lookup pt := by
  simp [annLookup, h]

/-- `reportTypeOf` ignores notes that do not carry the looked-up id. -/
theorem reportTypeOf_foldl_skip (notes : List Note) (nid : String) (acc : String)
    (h : ∀ x ∈ notes, ¬(x.note_id = nid ∧ x.note_id ≠ "")) :
    notes.foldl
      (fun acc n => if n.note_id = nid ∧ n.note_id ≠ "" then n.report_type else acc)
      acc = acc := by
  induction notes generalizing acc with
  | nil => rfl
  | cons hd tl ih =>
      have hhd := h hd (List.mem_cons_self hd tl)
      simp only [List.foldl_cons, if_neg hhd]
      exact ih acc fun x hx => h x (List.mem_cons_of_mem hd hx)

/-- With pairwise-distinct note ids, `reportTypeOf` returns the report type
of the (unique) note carrying the id. -/
theorem reportTypeOf_eq (notes : List Note)
    (hp : notes.Pairwise fun a b => a.note_id ≠ b.note_id)
    (n : Note) (hn : n ∈ notes) (h1 : n.note_id ≠ "") :
    reportTypeOf notes n.note_id = n.report_type := by
  induction notes with
  | nil => cases hn
  | cons hd tl ih =>
      rcases List.mem_cons.mp hn with h | h
      · subst h
        have hnone : ∀ x ∈ tl, ¬(x.note_id = n.note_id ∧ x.note_id ≠ "") := by
          intro x hx
          rintro ⟨h2, -⟩
          exact (List.pairwise_cons.mp hp).1 x hx h2.symm
        simp only [reportTypeOf, List.foldl_cons, true_and]
        rw [if_pos h1]
        exact reportTypeOf_foldl_skip tl n.note_id n.report_type hnone
      · have hne : ¬(hd.note_id = n.note_id ∧ hd.note_id ≠ "") := by
          rintro ⟨h2, -⟩
          exact (List.pairwise_cons.mp hp).1 n h h2
        have ihr := ih (List.pairwise_cons.mp hp).2 h
        simp only [reportTypeOf] at ihr ⊢
        rw [List.foldl_cons, if_neg hne]
        exact ihr

/-! ## C1 -/

/-- **C1.** After a PATCH that sets `report_type_mapping := m`:
(a) membership in `prompt_types` is exactly membership in some value list of
`m`; (b) for a note with id `nid` (ids pairwise distinct, `nid` non-empty),
an annotation stored under a prompt type that is not in the mapping's list
for the note's report type has been removed, and one under an allowed
prompt type is unchanged. -/
theorem patch_mapping_prunes_and_recomputes {A : Type} (s : Session A)
    (m : Mapping) (name? : Option String) (nid pt : String) (n : Note)
    (hp : s.notes.Pairwise fun a b => a.note_id ≠ b.note_id)
    (hn : n ∈ s.notes) (hid : n.note_id = nid) (hne : nid ≠ "") :
    (pt ∈ (updateSessionMetadata s name? (some m)).prompt_types ↔
      ∃ p ∈ m, pt ∈ p.2) ∧
    (pt ∉ allowedFor m n.report_type →
      annLookup (updateSessionMetadata s name? (some m)) nid pt = none) ∧
    (pt ∈ allowedFor m n.report_type →
      annLookup (updateSessionMetadata s name? (some m)) nid pt =
        annLookup s nid pt) := by
  have hnotes : (updateSessionMetadata s name? (some m)) =
      { (match name? with | some nm => { s with name := nm } | none => s) with
        report_type_mapping := some m
        prompt_types := ((m.map Prod.snd).flatten).dedup
        annotations := s.annotations.map fun p =>
          (p.1, p.2.filter fun pa =>
            pa.1 ∈ allowedFor m (reportTypeOf s.notes p.1)) } := by
    cases name? <;> rfl
  have hrt : reportTypeOf s.notes nid = n.report_type := by
    rw [← hid]
    exact reportTypeOf_eq s.notes hp n hn (hid ▸ hne)
  constructor
  · rw [hnotes]
    simp only [List.mem_dedup, List.mem_flatten, List.mem_map]
    constructor
    · rintro ⟨l, ⟨p, hpm, rfl⟩, hptl⟩
      exact ⟨p, hpm, hptl⟩
    · rintro ⟨p, hpm, hptl⟩
      exact ⟨p.2, ⟨p, hpm, rfl⟩, hptl⟩
  · have hlook : annLookup (updateSessionMetadata s name? (some m)) nid pt =
        if pt ∈ allowedFor m (reportTypeOf s.notes nid) then annLookup s nid pt
        else none := by
      rw [hnotes]
      show ((s.annotations.map fun p =>
          (p.1, p.2.filter fun pa =>
            pa.1 ∈ allowedFor m (reportTypeOf s.notes p.1))).lookup nid).bind
          (fun anns => anns.lookup pt) = _
      rw [lookup_map_values s.annotations
        (fun k anns => anns.filter fun pa =>
          pa.1 ∈ allowedFor m (reportTypeOf s.notes k)) nid]
      cases hcase : s.annotations.lookup nid with
      | none => simp [annLookup, hcase]
      | some anns =>
          simp only [Option.map_some', Option.some_bind]
          rw [lookup_filter_keys anns
            (fun k => k ∈ allowedFor m (reportTypeOf s.notes nid)) pt]
          rw [annLookup_some s nid pt anns hcase]
          by_cases hmem : pt ∈ allowedFor m (reportTypeOf s.notes nid)
          · rw [if_pos (by simpa using hmem), if_pos hmem]
          · rw [if_neg (by simpa using hmem), if_neg hmem]
    rw [hrt] at hlook
    constructor
    · intro hno
      rw [hlook, if_neg hno]
    · intro hyes
      rw [hlook, if_pos hyes]

/-- Witness for C1: patching `exSession` with a mapping that allows only
`biopsygrading-int` for `Pathology` notes prunes the `gender-int`
annotation, keeps the grading annotation, and recomputes `prompt_types`. -/
theorem patch_mapping_prunes_and_recomputes_witness :
    (annLookup (updateSessionMetadata exSession none
        (some [("Pathology", ["biopsygrading-int"])])) "N1" "gender-int" = none) ∧
    (annLookup (updateSessionMetadata exSession none
        (some [("Pathology", ["biopsygrading-int"])])) "N1" "biopsygrading-int" =
      annLookup exSession "N1" "biopsygrading-int") ∧
    ("biopsygrading-int" ∈ (updateSessionMetadata exSession none
        (some [("Pathology", ["biopsygrading-int"])])).prompt_types ↔
      ∃ p ∈ [("Pathology", ["biopsygrading-int"])], "biopsygrading-int" ∈ p.2) := by
  refine ⟨(patch_mapping_prunes_and_recomputes exSession
      [("Pathology", ["biopsygrading-int"])] none "N1" "gender-int"
      ⟨"N1", "Pathology"⟩ (by simp [exSession]) (by simp [exSession]) rfl
      (by simp)).2.1 (by decide),
    (patch_mapping_prunes_and_recomputes exSession
      [("Pathology", ["biopsygrading-int"])] none "N1" "biopsygrading-int"
      ⟨"N1", "Pathology"⟩ (by simp [exSession]) (by simp [exSession]) rfl
      (by simp)).2.2 (by decide),
    (patch_mapping_prunes_and_recomputes exSession
      [("Pathology", ["biopsygrading-int"])] none "N1" "biopsygrading-int"
      ⟨"N1", "Pathology"⟩ (by simp [exSession]) (by simp [exSession]) rfl
      (by simp)).1⟩

/-! ## C5 -/

/-- **C5.** `remove_prompt_types` 400s exactly when filtering the requested
types out of the current `prompt_types` leaves nothing (an error performs
no save, so the stored session is unchanged); on success the surviving
prompt list is the filtered one and the removed prompt types' annotations
are cascade-deleted for every note while all others are untouched. -/
theorem remove_prompt_types_spec {A : Type} (s : Session A)
    (toRemove : List String) :
    ((∃ d, removePromptTypes s toRemove = .error (.badRequest d)) ↔
      s.prompt_types.filter (fun pt => pt ∉ toRemove) = []) ∧
    (∀ s', removePromptTypes s toRemove = .ok s' →
      s'.prompt_types = s.prompt_types.filter (fun pt => pt ∉ toRemove) ∧
      ∀ nid pt, (pt ∈ toRemove → annLookup s' nid pt = none) ∧
        (pt ∉ toRemove → annLookup s' nid pt = annLookup s nid pt)) := by
  constructor
  · constructor
    · rintro ⟨d, hd⟩
      by_cases hemp : s.prompt_types.filter (fun pt => pt ∉ toRemove) = []
      · exact hemp
      · rw [removePromptTypes, if_neg hemp] at hd
        cases hd
    · intro hemp
      exact ⟨_, by rw [removePromptTypes, if_pos hemp]⟩
  · intro s' hs'
    by_cases hemp : s.prompt_types.filter (fun pt => pt ∉ toRemove) = []
    · rw [removePromptTypes, if_pos hemp] at hs'
      cases hs'
    · rw [removePromptTypes, if_neg hemp, Except.ok.injEq] at hs'
      subst hs'
      refine ⟨rfl, ?_⟩
      intro nid pt
      have hlook : annLookup
          { s with
            prompt_types := s.prompt_types.filter fun pt => pt ∉ toRemove
            annotations := s.annotations.map fun p =>
              (p.1, p.2.filter fun pa => pa.1 ∉ toRemove) } nid pt =
          if pt ∉ toRemove then annLookup s nid pt else none := by
        show ((s.annotations.map fun p =>
            (p.1, p.2.filter fun pa => pa.1 ∉ toRemove)).lookup nid).bind
            (fun anns => anns.lookup pt) = _
        rw [lookup_map_values s.annotations
          (fun _ anns => anns.filter fun pa => pa.1 ∉ toRemove) nid]
        cases hcase : s.annotations.lookup nid with
        | none => simp [annLookup, hcase]
        | some anns =>
            simp only [Option.map_some', Option.some_bind]
            rw [lookup_filter_keys anns (fun k => k ∉ toRemove) pt]
            rw [annLookup_some s nid pt anns hcase]
            by_cases hmem : pt ∉ toRemove
            · rw [if_pos (by simpa using hmem), if_pos hmem]
            · rw [if_neg (by simpa using hmem), if_neg hmem]
      constructor
      · intro hin
        rw [hlook, if_neg (by simpa using hin)]
      · intro hout
        rw [hlook, if_pos hout]

/-- Witness for C5: removing `gender-int` from `exSession` succeeds,
cascade-deletes its annotation and keeps the grading annotation. -/
theorem remove_prompt_types_spec_witness :
    ∃ s', removePromptTypes exSession ["gender-int"] = .ok s' ∧
      s'.prompt_types = ["biopsygrading-int"] ∧
      annLookup s' "N1" "gender-int" = none ∧
      annLookup s' "N1" "biopsygrading-int" = some 7 := by
  have hok : removePromptTypes exSession ["gender-int"] =
      .ok { exSession with
            prompt_types := ["biopsygrading-int"]
            annotations := [("N1", [("biopsygrading-int", 7)])] } := by rfl
  have h2 := (remove_prompt_types_spec exSession ["gender-int"]).2 _ hok
  exact ⟨_, hok, h2.1.trans (by decide),
    (h2.2 "N1" "gender-int").1 (by decide),
    ((h2.2 "N1" "biopsygrading-int").2 (by decide)).trans (by decide)⟩

/-! ## C4 -/

/-- **C4 (counterexample).** The claim — `_save_session` writes to a temp
path and renames, so a failed save leaves the previous session file
contents intact — is false: the source writes directly, and a crash during
the write is observable as the partial contents `"N"`, which is neither
the old `"OLD"` nor the new `"NEW"`. -/
theorem save_session_not_atomic : ¬ saveSessionCrashSafe := by
  intro h
  have hpre : (['N'] : List Char) ∈ ("NEW".toList).inits := by
    decide
  have hmem : (fun q => if q = "s.json" then some ['N'] else fs0 q) ∈
      crashStates fs0 (saveSessionOps "s.json" "NEW".toList) := by
    show _ ∈ fs0 :: (midStates fs0 (.write "s.json" "NEW".toList) ++
      crashStates (applyOp fs0 (.write "s.json" "NEW".toList)) [])
    exact List.mem_cons_of_mem _ (List.mem_append_left _
      (List.mem_map.mpr ⟨['N'], hpre, rfl⟩))
  have hres := h fs0 "s.json" "NEW".toList _ hmem
  rcases hres with h1 | h1
  · rw [if_pos rfl] at h1
    exact absurd h1 (by decide)
  · rw [if_pos rfl] at h1
    exact absurd h1 (by decide)

/-- **C4 (amended).** `_save_session` is not atomic: it writes the
serialized session directly to the session file.  The guarantee the code
actually provides: a save that crashes partway leaves the session file
either unchanged (crash before the write began) or holding some prefix of
the new contents — a partially written session file *is* observable. -/
theorem save_session_crash_prefix (fs : Fs) (file : String) (c : List Char)
    (st : Fs) (h : st ∈ crashStates fs (saveSessionOps file c)) :
    st file = fs file ∨ ∃ p, p <+: c ∧ st file = some p := by
  simp only [saveSessionOps, crashStates, midStates] at h
  rcases List.mem_cons.mp h with rfl | h2
  · left
    rfl
  rcases List.mem_append.mp h2 with h3 | h3
  · obtain ⟨pre, hpre, rfl⟩ := List.mem_map.mp h3
    right
    exact ⟨pre, (List.mem_inits pre c).mp hpre, by simp⟩
  · have hst : st = applyOp fs (.write file c) := by
      simpa using h3
    subst hst
    right
    exact ⟨c, List.prefix_refl c, by simp [applyOp]⟩

/-- Witness for the amended C4 at a concrete crash state (the state
observed when the save crashed before touching the file). -/
theorem save_session_crash_prefix_witness :
    fs0 "s.json" = fs0 "s.json" ∨
      ∃ p, p <+: "NEW".toList ∧ fs0 "s.json" = some p :=
  save_session_crash_prefix fs0 "s.json" "NEW".toList fs0
    (by
      show fs0 ∈ fs0 :: (midStates fs0 (.write "s.json" "NEW".toList) ++
        crashStates (applyOp fs0 (.write "s.json" "NEW".toList)) [])
      exact List.mem_cons_self _ _)

/-! ## C3 -/

/-- **C3.** For every job shape and every way a run can end (success,
`CancelledError`, other exception, at any point), the last
`pipeline_status` write has `step ∈ {Completed, Failed, Cancelled}` and
`progress = 100`; the force-kill endpoint likewise always writes
`("Cancelled", 100)`. -/
theorem job_terminal_status (sh : JobShape) (o : JobOutcome) (w : StatusWrite)
    (killed : Bool) (h : (statusTrace sh o).getLast? = some w) :
    ((w.step = "Completed" ∨ w.step = "Failed" ∨ w.step = "Cancelled") ∧
      w.progress = 100) ∧
    ((forceKillWrite killed).step = "Cancelled" ∧
      (forceKillWrite killed).progress = 100) := by
  refine ⟨?_, by simp [forceKillWrite]⟩
  have hlast : (statusTrace sh o).getLast? = some (terminalWrite sh o) := by
    show ((⟨"Queued", 0, none⟩ : StatusWrite) ::
      ((checkpoints sh).take (stepsDone sh o) ++ [terminalWrite sh o])).getLast? = _
    rw [← List.cons_append, List.getLast?_concat]
  rw [hlast, Option.some.injEq] at h
  subst h
  cases o with
  | success res => cases sh <;> simp [terminalWrite, completedWrite]
  | cancelledAfter k msg => cases sh <;> simp [terminalWrite, hasCancelHandler]
  | failedAfter k msg => simp [terminalWrite]

/-- Witness for C3: a successful quality-check run ends with
`("Completed", 100)`, and a force kill writes `("Cancelled", 100)`. -/
theorem job_terminal_status_witness :
    ((("Completed" : String) = "Completed" ∨ ("Completed" : String) = "Failed" ∨
        ("Completed" : String) = "Cancelled") ∧ (100 : Nat) = 100) ∧
    ((forceKillWrite true).step = "Cancelled" ∧
      (forceKillWrite true).progress = 100) :=
  job_terminal_status .qualityCheck (.success "")
    ⟨"Completed", 100, some "Quality-check finished."⟩ true rfl

/-! ## C2 -/

/-- **C2.** Given a route-validated `candidate_index` (`0 ≤ idx ≤ 4`), the
selection handler rejects with HTTP 400 whenever
`candidate_index ≥ len(candidates)` (including the empty-candidates case),
and on success the stored info has `selected_candidate_index = idx` with
`idx < len(candidates)` and its top-level `code`, `morphology_code`,
`topography_code`, `description` and `match_score` equal to the selected
candidate's fields (the candidate's `name` is mirrored into
`description`). -/
theorem select_icdo3_candidate_spec {σ : Type} (icdo3 : Icdo3CodeInfo σ)
    (idx : Nat) (_hroute : idx ≤ 4) :
    (icdo3.candidates.length ≤ idx →
      ∃ d, selectIcdo3Candidate (some icdo3) idx = .error (.badRequest d)) ∧
    (∀ r, selectIcdo3Candidate (some icdo3) idx = .ok r →
      ∃ h : idx < r.candidates.length,
        r.selected_candidate_index = some idx ∧
        r.code = some ((r.candidates.get ⟨idx, h⟩).query_code) ∧
        r.morphology_code = (r.candidates.get ⟨idx, h⟩).morphology_code ∧
        r.topography_code = (r.candidates.get ⟨idx, h⟩).topography_code ∧
        r.description = (r.candidates.get ⟨idx, h⟩).name ∧
        r.match_score = (r.candidates.get ⟨idx, h⟩).match_score) := by
  constructor
  · intro hlen
    by_cases hemp : icdo3.candidates.isEmpty
    · exact ⟨"No ICD-O-3 candidates available for selection", by
        simp [selectIcdo3Candidate, hemp]⟩
    · exact ⟨"Invalid candidate index", by
        simp [selectIcdo3Candidate, hemp, hlen]⟩
  · intro r hr
    by_cases hemp : icdo3.candidates.isEmpty
    · simp [selectIcdo3Candidate, hemp] at hr
    · by_cases hlen : icdo3.candidates.length ≤ idx
      · simp [selectIcdo3Candidate, hemp, hlen] at hr
      · have hempf : icdo3.candidates.isEmpty = false := by simpa using hemp
        simp only [selectIcdo3Candidate, hempf, Bool.false_eq_true, if_false,
          dif_neg hlen, Except.ok.injEq] at hr
        subst hr
        exact ⟨Nat.lt_of_not_le hlen, rfl, rfl, rfl, rfl, rfl, rfl⟩

/-- Witness for C2 on `exIcdo3` (two candidates): index 2 is rejected,
index 1 succeeds and mirrors the second candidate's fields. -/
theorem select_icdo3_candidate_spec_witness :
    (∃ d, selectIcdo3Candidate (some exIcdo3) 2 = .error (.badRequest d)) ∧
    ∃ r, selectIcdo3Candidate (some exIcdo3) 1 = .ok r ∧
      r.selected_candidate_index = some 1 ∧
      r.code = some "8805/3-C71.7" ∧
      r.description = some "Undifferentiated sarcoma of brain stem" := by
  constructor
  · exact (select_icdo3_candidate_spec exIcdo3 2 (by decide)).1 (by decide)
  · have hok : selectIcdo3Candidate (some exIcdo3) 1 =
        .ok { exIcdo3 with
              selected_candidate_index := some 1
              user_selected := true
              code := some "8805/3-C71.7"
              query_code := some "8805/3-C71.7"
              morphology_code := some "8805/3"
              topography_code := some "C71.7"
              description := some "Undifferentiated sarcoma of brain stem"
              match_score := some 0
              match_method := some "user_selected_combined"
              histology_code := some "8805"
              behavior_code := some "3" } := by rfl
    obtain ⟨h, hsel, hcode, -, -, hdesc, -⟩ :=
      (select_icdo3_candidate_spec exIcdo3 1 (by decide)).2 _ hok
    exact ⟨_, hok, hsel, hcode.trans (by rfl), hdesc.trans (by rfl)⟩

/-! ## C7 -/

/-- `intercalate` of a single group. -/
theorem intercalate_single {α : Type} (sep a : List α) :
    sep.intercalate [a] = a := by
  simp [List.intercalate, List.intersperse]

/-- `intercalate` over a cons with a non-empty tail. -/
theorem intercalate_cons_ne {α : Type} (sep a : List α) (l : List (List α))
    (h : l ≠ []) :
    sep.intercalate (a :: l) = a ++ sep ++ sep.intercalate l := by
  cases l with
  | nil => cases h rfl
  | cons b t =>
      simp [List.intercalate, List.intersperse, List.append_assoc]

/-- `intercalate` splits across an append of non-empty groups. -/
theorem intercalate_append_ne {α : Type} (sep : List α) (l₁ l₂ : List (List α))
    (h₁ : l₁ ≠ []) (h₂ : l₂ ≠ []) :
    sep.intercalate (l₁ ++ l₂) = sep.intercalate l₁ ++ sep ++ sep.intercalate l₂ := by
  induction l₁ with
  | nil => cases h₁ rfl
  | cons a t ih =>
      cases t with
      | nil =>
          rw [intercalate_single sep a, List.singleton_append]
          exact intercalate_cons_ne sep a l₂ h₂
      | cons b t' =>
          have hne : (b :: t') ++ l₂ ≠ [] := by simp
          rw [List.cons_append, intercalate_cons_ne sep a _ hne,
            ih (by simp), intercalate_cons_ne sep a _ (by simp)]
          simp [List.append_assoc]

/-- **C7.** Column-count reconstruction never truncates the text column:
take a text field made of `ts.length ≥ 2` delimiter-free fragments (i.e.
containing `ts.length - 1` internal `';'`s) and delimiter-free remaining
cells `cs`; the raw line `text ++ ';' ++ cs-joined` splits into more parts
than the `1 + cs.length` header columns, and the parser rejoins the excess
leading parts so the parsed row is exactly the (cleaned) full text followed
by the (cleaned) remaining cells.  The hypothesis `hline` says the raw line
carries no leading/trailing whitespace (the per-line `strip` is a no-op;
cell edges are still cleaned per the quoting convention). -/
theorem parse_csv_reconstructs (ts cs : List (List Char))
    (h2 : 2 ≤ ts.length)
    (htsf : ∀ l ∈ ts, ';' ∉ l) (hcsf : ∀ l ∈ cs, ';' ∉ l)
    (hline : stripWhile isPySpace ([';'].intercalate (([';'].intercalate ts) :: cs)) =
      [';'].intercalate (([';'].intercalate ts) :: cs)) :
    parseDataLine (1 + cs.length) ([';'].intercalate (([';'].intercalate ts) :: cs)) =
      some (cleanCell ([';'].intercalate ts) :: cs.map cleanCell) := by
  have hts : ts ≠ [] := by
    intro h
    rw [h] at h2
    exact absurd h2 (by decide)
  have hjoin : [';'].intercalate (([';'].intercalate ts) :: cs) =
      [';'].intercalate (ts ++ cs) := by
    cases cs with
    | nil => simp [intercalate_single]
    | cons c cst =>
        rw [intercalate_cons_ne [';'] _ _ (by simp),
          intercalate_append_ne [';'] ts (c :: cst) hts (by simp)]
  have hsplit : ([';'].intercalate (ts ++ cs)).splitOn ';' = ts ++ cs := by
    apply List.splitOn_intercalate
    · intro l hl
      rcases List.mem_append.mp hl with h | h
      · exact htsf l h
      · exact hcsf l h
    · simp [hts]
  have hnonempty : [';'].intercalate (ts ++ cs) ≠ [] := by
    intro hnil
    rw [hnil] at hsplit
    have : (ts ++ cs).length = 1 := by
      rw [← hsplit]
      rfl
    simp only [List.length_append] at this
    omega
  rw [hjoin] at hline ⊢
  rw [parseDataLine]
  simp only [hline, if_neg hnonempty, hsplit]
  have hlen : (ts ++ cs).length = ts.length + cs.length := List.length_append ts cs
  have hne : ¬ (ts ++ cs).length = 1 + cs.length := by
    rw [hlen]; omega
  have hlt : 1 + cs.length < (ts ++ cs).length := by
    rw [hlen]; omega
  rw [if_neg hne, if_pos hlt]
  have hexcess : (ts ++ cs).length - (1 + cs.length) + 1 = ts.length := by
    rw [hlen]; omega
  rw [hexcess, List.take_left' rfl, List.drop_left' rfl]
  rfl

/-- Witness for C7: the line `abc;def;X;Y` with a 3-column header parses to
text `abc;def` plus cells `X`, `Y`. -/
theorem parse_csv_reconstructs_witness :
    parseDataLine (1 + 2)
        ([';'].intercalate (([';'].intercalate [['a','b','c'], ['d','e','f']]) ::
          [['X'], ['Y']])) =
      some (cleanCell ([';'].intercalate [['a','b','c'], ['d','e','f']]) ::
        [['X'], ['Y']].map cleanCell) :=
  parse_csv_reconstructs [['a','b','c'], ['d','e','f']] [['X'], ['Y']]
    (by decide) (by decide) (by decide) (by decide)

/-! ## C6 -/

/-- A conditional-overwrite fold ends on `some row` only if it started
there or `row` satisfies the condition. -/
theorem foldl_if_some {β : Type} (P : β → Prop) [DecidablePred P] (l : List β)
    (acc : Option β) (row : β)
    (h : l.foldl (fun acc r => if P r then some r else acc) acc = some row) :
    acc = some row ∨ P row := by
  induction l generalizing acc with
  | nil => exact Or.inl h
  | cons hd tl ih =>
      rcases ih _ h with h1 | h1
      · have h2 : (if P hd then some hd else acc) = some row := h1
        by_cases hp : P hd
        · rw [if_pos hp, Option.some.injEq] at h2
          exact Or.inr (h2 ▸ hp)
        · rw [if_neg hp] at h2
          exact Or.inl h2
      · exact Or.inr h1

/-- A key present in the `Query` index is non-empty. -/
theorem queryIndexLookup_key_ne (rows : List CsvRow) (K : String) (row : CsvRow)
    (h : queryIndexLookup rows K = some row) : K ≠ "" := by
  unfold queryIndexLookup at h
  rcases foldl_if_some (fun r => r.query = K ∧ r.query ≠ "") rows none row h with
    h1 | h1
  · cases h1
  · exact h1.1 ▸ h1.2

/-- `foldl` preserves any predicate its step preserves. -/
theorem foldl_preserve {α β : Type} (P : α → Prop) (f : α → β → α) (l : List β)
    (hstep : ∀ a b, P a → P (f a b)) (a : α) (ha : P a) : P (l.foldl f a) := by
  induction l generalizing a with
  | nil => exact ha
  | cons hd tl ih => exact ih (f a hd) (hstep a hd ha)

/-- `insertIfAbsent` keeps the dict head and only appends entries whose
score is at most 0.9 (given the inserted value is so bounded). -/
theorem insertIfAbsent_inv (k0 : String) (e : CandEntry)
    (d : List (String × CandEntry)) (k : String) (v : CandEntry)
    (hv : v.2.1 ≤ 9/10) (h : DictInv k0 e d) :
    DictInv k0 e (insertIfAbsent d k v) := by
  rcases h with ⟨hhead, htail⟩
  rw [insertIfAbsent]
  split
  · cases d with
    | nil => cases hhead
    | cons p rest =>
        refine ⟨by simpa using hhead, ?_⟩
        intro q hq
        rcases (by simpa using hq : q ∈ rest ∨ q = (k, v)) with h1 | h1
        · exact htail q h1
        · rw [h1]
          exact hv
  · exact ⟨hhead, htail⟩

/-- Strategy 2 preserves the dict invariant. -/
theorem strat2_inv (rows : List CsvRow) (mc? tc? : Option String) (k0 : String)
    (e : CandEntry) (d : List (String × CandEntry)) (h : DictInv k0 e d) :
    DictInv k0 e (strat2 rows mc? tc? d) := by
  rw [strat2]
  split
  · refine foldl_preserve _ _ _ ?_ _ h
    intro a b ha
    split
    · exact insertIfAbsent_inv _ _ _ _ _ (by norm_num) ha
    · exact ha
  · exact h

/-- Strategy 3 preserves the dict invariant (its scores are capped at
0.75). -/
theorem strat3_inv (rows : List CsvRow) (mc? tt? : Option String)
    (sim : String → String → Rat) (k0 : String) (e : CandEntry)
    (d : List (String × CandEntry)) (h : DictInv k0 e d) :
    DictInv k0 e (strat3 rows mc? tt? sim d) := by
  rw [strat3]
  split
  · refine foldl_preserve _ _ _ ?_ _ h
    intro a b ha
    exact insertIfAbsent_inv _ _ _ _ _
      (le_trans (min_le_right _ _) (by norm_num)) ha
  · exact h

/-- Strategy 4 preserves the dict invariant (its scores are capped at
0.65). -/
theorem strat4_inv (rows : List CsvRow) (tc? ht? : Option String)
    (sim : String → String → Rat) (k0 : String) (e : CandEntry)
    (d : List (String × CandEntry)) (h : DictInv k0 e d) :
    DictInv k0 e (strat4 rows tc? ht? sim d) := by
  rw [strat4]
  split
  · refine foldl_preserve _ _ _ ?_ _ h
    intro a b ha
    exact insertIfAbsent_inv _ _ _ _ _
      (le_trans (min_le_right _ _) (by norm_num)) ha
  · exact h

/-- Strategy 5 preserves the dict invariant (its scores are capped at
0.6). -/
theorem strat5_inv (rows : List CsvRow) (ht? tt? : Option String)
    (sim : String → String → Rat) (k0 : String) (e : CandEntry)
    (d : List (String × CandEntry)) (h : DictInv k0 e d) :
    DictInv k0 e (strat5 rows ht? tt? sim d) := by
  rw [strat5]
  refine foldl_preserve _ _ _ ?_ _ h
  intro a term ha
  split
  · refine foldl_preserve _ _ _ ?_ _ ha
    intro a' row ha'
    split
    · exact insertIfAbsent_inv _ _ _ _ _
        (le_trans (min_le_right _ _) (by norm_num)) ha'
    · exact ha'
  · exact ha

/-- Elements of an `insertDescBy` come from the inserted element or the
list. -/
theorem mem_insertDescBy (x z : CandEntry) (l : List CandEntry)
    (h : z ∈ insertDescBy x l) : z = x ∨ z ∈ l := by
  induction l with
  | nil => simpa [insertDescBy] using h
  | cons y ys ih =>
      rw [insertDescBy] at h
      split at h
      · rcases List.mem_cons.mp h with h1 | h1
        · exact Or.inl h1
        · exact Or.inr h1
      · rcases List.mem_cons.mp h with h1 | h1
        · exact Or.inr (h1 ▸ List.mem_cons_self y ys)
        · rcases ih h1 with h2 | h2
          · exact Or.inl h2
          · exact Or.inr (List.mem_cons_of_mem y h2)

/-- Sorting does not invent elements. -/
theorem mem_sortDescBy (z : CandEntry) (l : List CandEntry)
    (h : z ∈ sortDescBy l) : z ∈ l := by
  induction l with
  | nil => simp [sortDescBy] at h
  | cons x xs ih =>
      rw [sortDescBy] at h
      rcases mem_insertDescBy x z _ h with h1 | h1
      · exact h1 ▸ List.mem_cons_self x xs
      · exact List.mem_cons_of_mem x (ih h1)

/-- A strict maximum at the head stays at the head of the sort. -/
theorem sortDescBy_cons_max (e : CandEntry) (l : List CandEntry)
    (h : ∀ v ∈ l, v.2.1 < e.2.1) :
    sortDescBy (e :: l) = e :: sortDescBy l := by
  rw [sortDescBy]
  cases hs : sortDescBy l with
  | nil => rw [insertDescBy]
  | cons y ys =>
      have hy : y ∈ l := mem_sortDescBy y l (hs ▸ List.mem_cons_self y ys)
      rw [insertDescBy, if_pos (le_of_lt (h y hy))]

/-- **C6.** For a query code `K` present in the `Query` index, whatever the
other resolution arguments and whatever values the text-similarity
function takes, `find_top_candidates` (with `n ≥ 1`) returns a non-empty
list whose first element is the indexed row for `K` with score 1.0 and
method `exact`, and every other returned candidate scores at most
0.9 < 1.0 — no other method outranks the exact match. -/
theorem find_top_candidates_exact_first (rows : List CsvRow)
    (sim : String → String → Rat) (ht? tt? mc? tc? : Option String)
    (K : String) (rowK : CsvRow) (n : Nat)
    (hK : queryIndexLookup rows K = some rowK) (hn : 1 ≤ n) :
    (findTopCandidates rows sim ht? tt? mc? tc? (some K) n).head? =
      some (rowK, 1, "exact") ∧
    ∀ e ∈ (findTopCandidates rows sim ht? tt? mc? tc? (some K) n).tail,
      e.2.1 ≤ 9/10 := by
  have hKne : K ≠ "" := queryIndexLookup_key_ne rows K rowK hK
  have h1 : strat1 rows (some K) = [(K, (rowK, 1, "exact"))] := by
    rw [strat1, if_pos (by simp [truthy, hKne])]
    simp only [Option.getD_some, hK]
  have hinv : DictInv K (rowK, 1, "exact")
      (strat5 rows ht? tt? sim
        (strat4 rows tc? ht? sim
          (strat3 rows mc? tt? sim
            (strat2 rows mc? tc?
              (strat1 rows (some K)))))) := by
    refine strat5_inv _ _ _ _ _ _ _ (strat4_inv _ _ _ _ _ _ _
      (strat3_inv _ _ _ _ _ _ _ (strat2_inv _ _ _ _ _ _ ?_)))
    rw [h1]
    exact ⟨rfl, by simp⟩
  have hunfold : findTopCandidates rows sim ht? tt? mc? tc? (some K) n =
      (sortDescBy ((strat5 rows ht? tt? sim
        (strat4 rows tc? ht? sim
          (strat3 rows mc? tt? sim
            (strat2 rows mc? tc?
              (strat1 rows (some K)))))).map Prod.snd)).take n := rfl
  rw [hunfold]
  obtain ⟨hhead, htail⟩ := hinv
  cases hdc : strat5 rows ht? tt? sim
      (strat4 rows tc? ht? sim
        (strat3 rows mc? tt? sim
          (strat2 rows mc? tc?
            (strat1 rows (some K))))) with
  | nil => rw [hdc] at hhead; cases hhead
  | cons p rest =>
      rw [hdc] at hhead htail
      have hp : p = (K, (rowK, 1, "exact")) := by simpa using hhead
      subst hp
      have hscores : ∀ v ∈ rest.map Prod.snd, v.2.1 < ((rowK, (1 : Rat), "exact") : CandEntry).2.1 := by
        intro v hv
        obtain ⟨q, hq, rfl⟩ := List.mem_map.mp hv
        have hb := htail q (by simpa using hq)
        calc (q.2).2.1 ≤ 9/10 := hb
        _ < 1 := by norm_num
      obtain ⟨m, rfl⟩ : ∃ m, n = m + 1 := ⟨n - 1, by omega⟩
      rw [List.map_cons, sortDescBy_cons_max _ _ hscores, List.take_succ_cons]
      refine ⟨rfl, ?_⟩
      intro e he
      have h2 : e ∈ sortDescBy (rest.map Prod.snd) :=
        List.take_subset m _ (by simpa using he)
      obtain ⟨q, hq, rfl⟩ := List.mem_map.mp (mem_sortDescBy e _ h2)
      exact htail q (by simpa using hq)

/-- Witness for C6 on a two-row dictionary: resolving the second row's
query code with extra text arguments puts `(row, 1.0, "exact")` first. -/
theorem find_top_candidates_exact_first_witness :
    (findTopCandidates
        [⟨"8000/3-C71.7", "8000/3", "C71.7", "Neoplasm, malignant, of brain stem"⟩,
         ⟨"8805/3-C71.7", "8805/3", "C71.7", "Undifferentiated sarcoma of brain stem"⟩]
        (fun _ _ => 1/2) (some "sarcoma") none (some "8805/3") none
        (some "8805/3-C71.7") 5).head? =
      some (⟨"8805/3-C71.7", "8805/3", "C71.7", "Undifferentiated sarcoma of brain stem"⟩, 1, "exact") ∧
    ∀ e ∈ (findTopCandidates
        [⟨"8000/3-C71.7", "8000/3", "C71.7", "Neoplasm, malignant, of brain stem"⟩,
         ⟨"8805/3-C71.7", "8805/3", "C71.7", "Undifferentiated sarcoma of brain stem"⟩]
        (fun _ _ => 1/2) (some "sarcoma") none (some "8805/3") none
        (some "8805/3-C71.7") 5).tail,
      e.2.1 ≤ 9/10 :=
  find_top_candidates_exact_first
    [⟨"8000/3-C71.7", "8000/3", "C71.7", "Neoplasm, malignant, of brain stem"⟩,
     ⟨"8805/3-C71.7", "8805/3", "C71.7", "Undifferentiated sarcoma of brain stem"⟩]
    (fun _ _ => 1/2) (some "sarcoma") none (some "8805/3") none
    "8805/3-C71.7"
    ⟨"8805/3-C71.7", "8805/3", "C71.7", "Undifferentiated sarcoma of brain stem"⟩
    5 (by decide) (by decide)

/-! ## C8 -/

/-- **C8 (counterexample).** The claim — an absence-indicator expected
value (its own example is `"Not applicable"`) paired with a placeholder
prediction counts as an `extraction_success` match — is false:
`is_placeholder_value` does not recognize `"not applicable"` (the pattern
list has `specified|available|mentioned|found` but not `applicable`), so
the pair falls into Case 3 and is scored `extraction_failed`, a mismatch.
The pair never reaches the both-have-values comparison, so the `cmp4`
instantiation is irrelevant. -/
theorem compare_field_absence_counterexample :
    isPlaceholderValue "[x]" = true ∧
    isPlaceholderValue "Not applicable" = false ∧
    (compareFieldValues (fun _ _ _ => (false, "none", 0))
      "Not applicable" "[x]" "text" false).matched = false ∧
    (compareFieldValues (fun _ _ _ => (false, "none", 0))
      "Not applicable" "[x]" "text" false).match_method = "extraction_failed" := by
  refine ⟨by decide, by decide, by decide, by decide⟩

/-- **C8 (amended).** What `compare_field_values` actually does when the
expected value is a *recognized* placeholder (`"Unknown"`,
`"Not specified"`, …, but not `"Not applicable"`) and the expected
annotation is not entirely empty: paired with a placeholder prediction it
is a match with method `both_placeholder`; paired with a real value it is
a match with method `extraction_success` — for every both-values
comparator. -/
theorem compare_field_placeholder_semantics
    (cmp4 : String → String → String → Bool × String × Rat)
    (ev pv ft : String) (heph : isPlaceholderValue ev = true) :
    (isPlaceholderValue pv = true →
      (compareFieldValues cmp4 ev pv ft false).matched = true ∧
      (compareFieldValues cmp4 ev pv ft false).match_method = "both_placeholder") ∧
    (isPlaceholderValue pv = false →
      (compareFieldValues cmp4 ev pv ft false).matched = true ∧
      (compareFieldValues cmp4 ev pv ft false).match_method = "extraction_success") := by
  constructor <;> intro hp <;> constructor <;>
    simp [compareFieldValues, heph, hp]

/-- Witness for the amended C8: expected `"Unknown"` against the
placeholder `"[x]"` and against the value `"male"`. -/
theorem compare_field_placeholder_semantics_witness :
    ((compareFieldValues (fun _ _ _ => (false, "none", 0))
        "Unknown" "[x]" "text" false).matched = true ∧
      (compareFieldValues (fun _ _ _ => (false, "none", 0))
        "Unknown" "[x]" "text" false).match_method = "both_placeholder") ∧
    ((compareFieldValues (fun _ _ _ => (false, "none", 0))
        "Unknown" "male" "text" false).matched = true ∧
      (compareFieldValues (fun _ _ _ => (false, "none", 0))
        "Unknown" "male" "text" false).match_method = "extraction_success") := by
  constructor
  · exact (compare_field_placeholder_semantics (fun _ _ _ => (false, "none", 0))
      "Unknown" "[x]" "text" (by decide)).1 (by decide)
  · exact (compare_field_placeholder_semantics (fun _ _ _ => (false, "none", 0))
      "Unknown" "male" "text" (by decide)).2 (by decide)

/-! ## C9 -/

/-- The batch trace folds to zero in-flight calls and a running maximum of
`min pairs 1`. -/
theorem batch_trace_foldl (pairs : Nat) :
    ((List.range pairs).flatMap
      (fun i => [LlmEvent.start i, LlmEvent.finish i])).foldl
      inFlightFold (0, 0) = (0, if pairs = 0 then 0 else 1) := by
  induction pairs with
  | zero => rfl
  | succ n ih =>
      rw [List.range_succ, List.flatMap_append, List.foldl_append, ih]
      show inFlightFold (inFlightFold (0, if n = 0 then 0 else 1) (LlmEvent.start n))
        (LlmEvent.finish n) = (0, if n + 1 = 0 then 0 else 1)
      by_cases hn : n = 0 <;> simp [inFlightFold, hn]

/-- **C9 (counterexample).** The claim — batch LLM calls run as concurrent
tasks bounded by a `VLLM_CONCURRENCY` semaphore (default 8) that a large
enough batch fills — is false: with the default environment and 8 pairs
the peak number of in-flight calls is 1, not 8, because `batch_process`
loops over the pairs and calls the client synchronously. -/
theorem batch_not_semaphore_bounded : ¬ batchConcurrencyClaim := by
  intro h
  have h8 := h (fun _ => none) 8 (by decide)
  exact absurd h8 (by decide)

/-- **C9 (amended).** `batch_process` issues the per-(note, prompt) LLM
calls strictly sequentially — at most one call is ever in flight — and
the call trace does not depend on the environment at all (there is no
semaphore and `VLLM_CONCURRENCY` is never read). -/
theorem batch_sequential_llm_calls (env env' : String → Option String)
    (pairs : Nat) :
    maxInFlight (batchLlmTrace env pairs) ≤ 1 ∧
    batchLlmTrace env pairs = batchLlmTrace env' pairs := by
  constructor
  · unfold maxInFlight batchLlmTrace
    rw [batch_trace_foldl]
    split <;> simp
  · rfl

/-! ## C10 -/

/-- **C10 (counterexample).** `normalize_absence_indicator` is not
idempotent: on `"a:b:\nc unknown"` the first pass extracts the label
`"a:b"` (the colon after `"a"` is rejected because `\s*.+$` fails across
the newline) giving `"a:b: Not applicable"`, but a second pass re-extracts
the shorter label `"a"` and returns `"a: Not applicable"`. -/
theorem normalize_absence_not_idempotent :
    normalizeAbsenceIndicator
        (normalizeAbsenceIndicator ("a:b:\nc unknown".toList)) ≠
      normalizeAbsenceIndicator ("a:b:\nc unknown".toList) := by
  decide

/-- The head surviving `dropWhile` fails the predicate. -/
theorem head?_dropWhile_not {α : Type} (p : α → Bool) (l : List α) (c : α)
    (h : (l.dropWhile p).head? = some c) : p c = false := by
  induction l with
  | nil => cases h
  | cons x xs ih =>
      rw [List.dropWhile_cons] at h
      split at h
      · exact ih h
      · rw [List.head?_cons, Option.some.injEq] at h
        subst h
        rename_i hx
        simpa using hx

/-- `dropWhile` is a no-op when the head already fails the predicate. -/
theorem dropWhile_eq_self_of_head {α : Type} (p : α → Bool) (l : List α)
    (h : ∀ c, l.head? = some c → p c = false) : l.dropWhile p = l := by
  cases l with
  | nil => rfl
  | cons x xs =>
      rw [List.dropWhile_cons, if_neg]
      simp [h x rfl]

/-- `dropWhile` keeps the last element when it keeps anything. -/
theorem getLast?_dropWhile {α : Type} (p : α → Bool) (l : List α)
    (h : l.dropWhile p ≠ []) : (l.dropWhile p).getLast? = l.getLast? := by
  induction l with
  | nil => cases h rfl
  | cons x xs ih =>
      by_cases hx : p x
      · rw [List.dropWhile_cons, if_pos hx] at h ⊢
        have hxs : xs ≠ [] := by
          intro h0
          rw [h0] at h
          exact h rfl
        cases xs with
        | nil => cases hxs rfl
        | cons y ys =>
            rw [ih h, List.getLast?_cons_cons]
      · rw [List.dropWhile_cons, if_neg hx] at h ⊢

/-- The head of a stripped list fails the predicate. -/
theorem stripWhile_head_not (p : Char → Bool) (l : List Char) (c : Char)
    (h : (stripWhile p l).head? = some c) : p c = false := by
  rw [stripWhile, List.head?_reverse] at h
  have hne : (l.dropWhile p).reverse.dropWhile p ≠ [] := by
    intro h0
    rw [h0] at h
    cases h
  rw [getLast?_dropWhile p _ hne, List.getLast?_reverse] at h
  exact head?_dropWhile_not p _ c h

/-- The last element of a stripped list fails the predicate. -/
theorem stripWhile_getLast_not (p : Char → Bool) (l : List Char) (c : Char)
    (h : (stripWhile p l).getLast? = some c) : p c = false := by
  rw [stripWhile, List.getLast?_reverse] at h
  exact head?_dropWhile_not p _ c h

/-- Stripping a list whose ends already fail the predicate is a no-op. -/
theorem stripWhile_eq_self (p : Char → Bool) (l : List Char)
    (hh : ∀ c, l.head? = some c → p c = false)
    (hl : ∀ c, l.getLast? = some c → p c = false) : stripWhile p l = l := by
  rw [stripWhile, dropWhile_eq_self_of_head p l hh,
    dropWhile_eq_self_of_head p l.reverse
      (fun c hc => hl c (by rwa [List.head?_reverse] at hc)),
    List.reverse_reverse]

/-- Stripping is idempotent. -/
theorem stripWhile_idem (p : Char → Bool) (l : List Char) :
    stripWhile p (stripWhile p l) = stripWhile p l :=
  stripWhile_eq_self p _ (fun c hc => stripWhile_head_not p l c hc)
    (fun c hc => stripWhile_getLast_not p l c hc)

/-- Stripping only removes elements. -/
theorem mem_stripWhile (p : Char → Bool) (l : List Char) (x : Char)
    (h : x ∈ stripWhile p l) : x ∈ l := by
  rw [stripWhile, List.mem_reverse] at h
  have h2 := (List.dropWhile_suffix (l := (l.dropWhile p).reverse) p).subset h
  rw [List.mem_reverse] at h2
  exact (List.dropWhile_suffix (l := l) p).subset h2

/-- The stripped list is a prefix of the leading-dropped list. -/
theorem stripWhile_prefix_dropWhile (p : Char → Bool) (l : List Char) :
    stripWhile p l <+: l.dropWhile p := by
  rw [stripWhile]
  have h := List.reverse_prefix.mpr
    (List.dropWhile_suffix (l := (l.dropWhile p).reverse) p)
  rwa [List.reverse_reverse] at h

/-- A member of `getLast?`. -/
theorem mem_of_getLast?_eq {α : Type} (l : List α) (a : α)
    (h : l.getLast? = some a) : a ∈ l := by
  rw [← List.head?_reverse] at h
  rw [← List.mem_reverse]
  cases hr : l.reverse with
  | nil => rw [hr] at h; cases h
  | cons x xs =>
      rw [hr, List.head?_cons, Option.some.injEq] at h
      rw [← h]
      exact List.mem_cons_self x xs

/-- `Char.ofNat` of a BMP code point keeps its value. -/
theorem char_ofNat_toNat (n : Nat) (h : n < 55296) : (Char.ofNat n).toNat = n := by
  unfold Char.ofNat
  rw [dif_pos (Or.inl h)]
  rfl

/-- Characters above the ASCII control/space range are not whitespace. -/
theorem isPySpace_false_of_gt (c : Char) (h : 64 < c.toNat) :
    isPySpace c = false := by
  have hne : ¬(c = ' ' ∨ c = '\t' ∨ c = '\n' ∨ c = '\r' ∨ c = '\x0c' ∨ c = '\x0b') := by
    rintro (rfl | rfl | rfl | rfl | rfl | rfl) <;> exact absurd h (by decide)
  simp only [isPySpace]
  exact decide_eq_false hne

/-- Lowercasing preserves whitespace-ness. -/
theorem isPySpace_toLower (c : Char) :
    isPySpace (Char.toLower c) = isPySpace c := by
  have hdef : Char.toLower c =
      if c.toNat ≥ 65 ∧ c.toNat ≤ 90 then Char.ofNat (c.toNat + 32) else c := rfl
  rw [hdef]
  by_cases hn : c.toNat ≥ 65 ∧ c.toNat ≤ 90
  · rw [if_pos hn, isPySpace_false_of_gt c (by omega)]
    apply isPySpace_false_of_gt
    rw [char_ofNat_toNat _ (by omega)]
    omega
  · rw [if_neg hn]

/-- A `searchAlt` hit is preserved under any prefix ending just before the
threaded previous character. -/
theorem searchAlt_cons_suffix (pre alts : List (List Char)) (c : Char)
    (l₂ : List Char) (h : searchAlt pre alts (some c) l₂ = true) :
    ∀ (l₁ : List Char) (prev : Option Char),
      searchAlt pre alts prev (l₁ ++ c :: l₂) = true := by
  intro l₁
  induction l₁ with
  | nil =>
      intro prev
      show ((boundaryOk prev && altMatchAt pre alts (c :: l₂)) ||
        searchAlt pre alts (some c) l₂) = true
      rw [h, Bool.or_true]
  | cons x xs ih =>
      intro prev
      show ((boundaryOk prev && altMatchAt pre alts (x :: (xs ++ c :: l₂))) ||
        searchAlt pre alts (some x) (xs ++ c :: l₂)) = true
      rw [ih (some x), Bool.or_true]

/-- Over newline-free text, `\s*.+$` holds exactly on non-empty
remainders. -/
theorem tailMatches_of_no_newline (r : List Char) (hnl : '\n' ∉ r)
    (hne : r ≠ []) : tailMatches r = true := by
  rw [tailMatches, if_neg]
  · rw [tailMatchesCore]
    have htw : r.reverse.takeWhile (fun c => c ≠ '\n') = r.reverse := by
      rw [List.takeWhile_eq_self_iff]
      intro x hx
      rw [List.mem_reverse] at hx
      simp only [ne_eq, decide_eq_true_eq]
      intro h0
      exact hnl (h0 ▸ hx)
    rw [htw, List.reverse_reverse]
    simp [hne]
  · intro h
    exact hnl (mem_of_getLast?_eq r '\n' h)

/-- Scanning with a non-empty accumulator over newline-free text: a hit
decomposes the text at its first colon (all of which are viable there),
and the label is the accumulator plus the colon-free prefix. -/
theorem extractAux_ne (t : List Char) (hnl : ∀ c ∈ t, c ≠ '\n') :
    ∀ acc lab, acc ≠ [] → extractLabelAux acc t = some lab →
      ∃ p rest, t = p ++ ':' :: rest ∧ (∀ c ∈ p, c ≠ ':') ∧
        lab = acc.reverse ++ p := by
  induction t with
  | nil =>
      intro acc lab hacc h
      cases h
  | cons c cs ih =>
      intro acc lab hacc h
      have hc : c ≠ '\n' := hnl c (List.mem_cons_self c cs)
      have hstep : extractLabelAux acc (c :: cs) =
          if c = '\n' then none
          else if c = ':' ∧ acc ≠ [] ∧ tailMatches cs then some acc.reverse
          else extractLabelAux (c :: acc) cs := rfl
      rw [hstep, if_neg hc] at h
      by_cases hcond : c = ':' ∧ acc ≠ [] ∧ tailMatches cs
      · rw [if_pos hcond, Option.some.injEq] at h
        exact ⟨[], cs, by rw [hcond.1]; rfl, by simp, by simp [← h]⟩
      · rw [if_neg hcond] at h
        obtain ⟨p, rest, hcs, hpc, hlab⟩ :=
          ih (fun x hx => hnl x (List.mem_cons_of_mem c hx)) (c :: acc) lab
            (by simp) h
        have hcne : c ≠ ':' := by
          intro hcc
          apply hcond
          refine ⟨hcc, hacc, ?_⟩
          apply tailMatches_of_no_newline
          · intro hm
            exact hnl '\n' (List.mem_cons_of_mem c hm) rfl
          · rw [hcs]
            simp
        refine ⟨c :: p, rest, by rw [List.cons_append, hcs], ?_, ?_⟩
        · intro x hx
          rcases List.mem_cons.mp hx with rfl | hx2
          · exact hcne
          · exact hpc x hx2
        · rw [hlab, List.reverse_cons, List.append_assoc]
          rfl

/-- Scanning with a non-empty accumulator through a colon-free,
newline-free stretch reaches the colon behind it and returns
`acc.reverse ++ stretch` when the remainder matches. -/
theorem extractAux_reach (rest : List Char) (htm : tailMatches rest = true) :
    ∀ (L₁ acc : List Char), (∀ c ∈ L₁, c ≠ ':' ∧ c ≠ '\n') → acc ≠ [] →
      extractLabelAux acc (L₁ ++ ':' :: rest) = some (acc.reverse ++ L₁) := by
  intro L₁
  induction L₁ with
  | nil =>
      intro acc hL hacc
      show (if (':' : Char) = '\n' then none
        else if (':' : Char) = ':' ∧ acc ≠ [] ∧ tailMatches rest then
          some acc.reverse
        else extractLabelAux (':' :: acc) rest) = some (acc.reverse ++ [])
      rw [if_neg (by decide), if_pos ⟨rfl, hacc, htm⟩, List.append_nil]
  | cons x xs ih =>
      intro acc hL hacc
      have hx := hL x (List.mem_cons_self x xs)
      show (if x = '\n' then none
        else if x = ':' ∧ acc ≠ [] ∧ tailMatches (xs ++ ':' :: rest) then
          some acc.reverse
        else extractLabelAux (x :: acc) (xs ++ ':' :: rest)) = _
      rw [if_neg hx.2, if_neg (fun hcon => hx.1 hcon.1),
        ih (x :: acc) (fun y hy => hL y (List.mem_cons_of_mem x hy)) (by simp),
        List.reverse_cons, List.append_assoc]
      rfl

/-- **C10 (amended).** On every input without a newline character,
`normalize_absence_indicator` is idempotent: `"Not applicable"` and the
newline-free `"Label: Not applicable"` outputs are fixed points, and
non-absence texts are returned stripped (hence fixed from the first
application on).  (With a newline the label re-extraction can shorten, as
the counterexample shows.) -/
theorem normalize_absence_idempotent_no_newline (s : List Char)
    (hnl : '\n' ∉ s) :
    normalizeAbsenceIndicator (normalizeAbsenceIndicator s) =
      normalizeAbsenceIndicator s := by
  by_cases h0 : stripWhile isPySpace s = []
  · have hin : normalizeAbsenceIndicator s = [] := by
      rw [normalizeAbsenceIndicator, if_pos h0]
    rw [hin]
    decide
  · obtain ⟨t, hts⟩ : ∃ t, stripWhile isPySpace s = t := ⟨_, rfl⟩
    have htne : t ≠ [] := by rw [← hts]; exact h0
    have hfs : normalizeAbsenceIndicator s = normalizeCore t := by
      rw [normalizeAbsenceIndicator, if_neg h0, hts]
    have htnl : '\n' ∉ t := by
      rw [← hts]
      exact fun hm => hnl (mem_stripWhile _ _ _ hm)
    have hthead : ∀ c, t.head? = some c → isPySpace c = false := by
      intro c hc
      exact stripWhile_head_not isPySpace s c (by rw [hts]; exact hc)
    have htlast : ∀ c, t.getLast? = some c → isPySpace c = false := by
      intro c hc
      exact stripWhile_getLast_not isPySpace s c (by rw [hts]; exact hc)
    have htstrip : stripWhile isPySpace t = t := by
      rw [← hts]
      exact stripWhile_idem _ _
    cases habs : isAbsenceIndicator t with
    | false =>
        have hcoret : normalizeCore t = t := by
          rw [normalizeCore, habs]
          rfl
        rw [hfs, hcoret, normalizeAbsenceIndicator, htstrip, if_neg htne,
          hcoret]
    | true =>
        cases hlab : extractLabel t with
        | none =>
            have hfseq : normalizeAbsenceIndicator s = "Not applicable".toList := by
              rw [hfs, normalizeCore, habs, hlab]
              rfl
            rw [hfseq]
            decide
        | some L =>
            have hfseq : normalizeAbsenceIndicator s =
                L ++ ": Not applicable".toList := by
              rw [hfs, normalizeCore, habs, hlab]
              rfl
            rw [hfseq]
            -- Unpack `extractLabel`.
            obtain ⟨lab, hlab0, hLdef, hLabs⟩ :
                ∃ lab, extractLabelAux [] t = some lab ∧
                  L = stripWhile isPySpace lab ∧
                  isAbsenceIndicator L = false := by
              rw [extractLabel] at hlab
              cases h1 : extractLabelAux [] t with
              | none => rw [h1] at hlab; simp at hlab
              | some lab =>
                  rw [h1] at hlab
                  have hlab2 : (if isAbsenceIndicator (stripWhile isPySpace lab)
                      then none
                      else some (stripWhile isPySpace lab)) = some L := hlab
                  cases h2 : isAbsenceIndicator (stripWhile isPySpace lab) with
                  | true => rw [h2] at hlab2; simp at hlab2
                  | false =>
                      rw [h2] at hlab2
                      simp only [Bool.false_eq_true, if_false,
                        Option.some.injEq] at hlab2
                      exact ⟨lab, rfl, hlab2.symm, by rw [hlab2] at h2; exact h2⟩
            -- Decompose the scan of `t`.
            obtain ⟨c₀, t', rfl⟩ : ∃ c₀ t', t = c₀ :: t' := by
              cases t with
              | nil => cases htne rfl
              | cons a b => exact ⟨a, b, rfl⟩
            have hc₀ : isPySpace c₀ = false := hthead c₀ rfl
            have hc₀nl : c₀ ≠ '\n' := by
              intro h
              rw [h] at hc₀
              exact absurd hc₀ (by decide)
            have hlab1 : extractLabelAux [c₀] t' = some lab := by
              have hstep : extractLabelAux [] (c₀ :: t') =
                  (if c₀ = '\n' then none
                   else if c₀ = ':' ∧ ([] : List Char) ≠ [] ∧ tailMatches t' then
                     some ([] : List Char).reverse
                   else extractLabelAux [c₀] t') := rfl
              rw [hstep, if_neg hc₀nl, if_neg (fun h => h.2.1 rfl)] at hlab0
              exact hlab0
            obtain ⟨p, rest, ht', hpc, hlabeq⟩ :=
              extractAux_ne t'
                (fun x hx h => htnl (h ▸ List.mem_cons_of_mem c₀ hx))
                [c₀] lab (by simp) hlab1
            have hlabcons : lab = c₀ :: p := by
              rw [hlabeq]
              rfl
            -- `L` is a non-empty prefix of `lab` with the same head.
            have hlabdrop : lab.dropWhile isPySpace = lab := by
              apply dropWhile_eq_self_of_head
              intro c hc
              rw [hlabcons, List.head?_cons, Option.some.injEq] at hc
              rw [← hc]
              exact hc₀
            have hLpre : L <+: lab := by
              rw [hLdef]
              have h := stripWhile_prefix_dropWhile isPySpace lab
              rwa [hlabdrop] at h
            have hLne : L ≠ [] := by
              intro h
              rw [h] at hLabs
              exact absurd hLabs (by decide)
            obtain ⟨L₁, rfl⟩ : ∃ L₁, L = c₀ :: L₁ := by
              obtain ⟨u, hu⟩ := hLpre
              cases L with
              | nil => cases hLne rfl
              | cons d L₁ =>
                  rw [hlabcons, List.cons_append] at hu
                  exact ⟨L₁, by rw [(List.cons.injEq _ _ _ _).mp hu |>.1]⟩
            have hL₁sub : ∀ c ∈ L₁, c ∈ p := by
              obtain ⟨u, hu⟩ := hLpre
              rw [hlabcons, List.cons_append] at hu
              have := (List.cons.injEq _ _ _ _).mp hu |>.2
              intro c hc
              rw [← this]
              exact List.mem_append_left u hc
            have hL₁c : ∀ c ∈ L₁, c ≠ ':' ∧ c ≠ '\n' := by
              intro c hc
              refine ⟨hpc c (hL₁sub c hc), ?_⟩
              intro h
              apply htnl
              rw [ht']
              exact List.mem_cons_of_mem c₀
                (List.mem_append_left _ (h ▸ hL₁sub c hc))
            have hLlast : ∀ c, (c₀ :: L₁).getLast? = some c → isPySpace c = false := by
              intro c hc
              exact stripWhile_getLast_not isPySpace lab c (by rw [← hLdef]; exact hc)
            -- The output and its properties.
            have honene : (c₀ :: L₁) ++ ": Not applicable".toList ≠ [] := by
              simp
            have hohead : ((c₀ :: L₁) ++ ": Not applicable".toList).head? = some c₀ := by
              rw [List.cons_append]
              rfl
            have holast : ((c₀ :: L₁) ++ ": Not applicable".toList).getLast? =
                some 'e' := by
              rw [List.getLast?_append]
              rfl
            have hstripo : stripWhile isPySpace
                ((c₀ :: L₁) ++ ": Not applicable".toList) =
                (c₀ :: L₁) ++ ": Not applicable".toList := by
              apply stripWhile_eq_self
              · intro c hc
                rw [hohead, Option.some.injEq] at hc
                rw [← hc]
                exact hc₀
              · intro c hc
                rw [holast, Option.some.injEq] at hc
                rw [← hc]
                decide
            -- Lowercased output still has non-whitespace ends.
            have homap : ((c₀ :: L₁) ++ ": Not applicable".toList).map Char.toLower =
                ((c₀ :: L₁).map Char.toLower ++ [':']) ++
                  ' ' :: "not applicable".toList := by
              rw [List.map_append]
              rw [show ": Not applicable".toList.map Char.toLower =
                ':' :: ' ' :: "not applicable".toList from by decide]
              rw [List.append_assoc]
              rfl
            have hstriplow : stripWhile isPySpace
                (((c₀ :: L₁) ++ ": Not applicable".toList).map Char.toLower) =
                ((c₀ :: L₁) ++ ": Not applicable".toList).map Char.toLower := by
              apply stripWhile_eq_self
              · intro c hc
                rw [List.head?_map, hohead] at hc
                simp only [Option.map_some', Option.some.injEq] at hc
                rw [← hc, isPySpace_toLower]
                exact hc₀
              · intro c hc
                rw [List.getLast?_map, holast] at hc
                simp only [Option.map_some', Option.some.injEq] at hc
                rw [← hc]
                decide
            have habso : isAbsenceIndicator
                ((c₀ :: L₁) ++ ": Not applicable".toList) = true := by
              rw [isAbsenceIndicator, if_neg honene, hstriplow, homap,
                absenceSearch]
              have hbase : searchAlt ["not".toList]
                  (["specified", "available", "applicable", "mentioned",
                    "present", "found"].map String.toList) (some ' ')
                  "not applicable".toList = true := by decide
              rw [searchAlt_cons_suffix _ _ ' ' _ hbase
                ((c₀ :: L₁).map Char.toLower ++ [':']) none]
              rfl
            have hextro : extractLabel
                ((c₀ :: L₁) ++ ": Not applicable".toList) = some (c₀ :: L₁) := by
              have haux : extractLabelAux []
                  ((c₀ :: L₁) ++ ": Not applicable".toList) = some (c₀ :: L₁) := by
                have hshape : (c₀ :: L₁) ++ ": Not applicable".toList =
                    c₀ :: (L₁ ++ ':' :: " Not applicable".toList) := by
                  rw [List.cons_append]
                  rfl
                rw [hshape]
                have hstep : extractLabelAux []
                    (c₀ :: (L₁ ++ ':' :: " Not applicable".toList)) =
                    (if c₀ = '\n' then none
                     else if c₀ = ':' ∧ ([] : List Char) ≠ [] ∧
                         tailMatches (L₁ ++ ':' :: " Not applicable".toList) then
                       some ([] : List Char).reverse
                     else extractLabelAux [c₀]
                       (L₁ ++ ':' :: " Not applicable".toList)) := rfl
                rw [hstep, if_neg hc₀nl, if_neg (fun h => h.2.1 rfl),
                  extractAux_reach _ (by decide) L₁ [c₀] hL₁c (by simp)]
                rfl
              rw [extractLabel, haux]
              have hstripL : stripWhile isPySpace (c₀ :: L₁) = c₀ :: L₁ := by
                apply stripWhile_eq_self
                · intro c hc
                  rw [List.head?_cons, Option.some.injEq] at hc
                  rw [← hc]
                  exact hc₀
                · exact hLlast
              show (if isAbsenceIndicator (stripWhile isPySpace (c₀ :: L₁)) then none
                else some (stripWhile isPySpace (c₀ :: L₁))) = some (c₀ :: L₁)
              rw [hstripL, hLabs]
              rfl
            -- Assemble.
            rw [normalizeAbsenceIndicator, hstripo, if_neg honene,
              normalizeCore, habso, hextro]
            rfl

/-- Witness for the amended C10 at a concrete newline-free absence text. -/
theorem normalize_absence_idempotent_no_newline_witness :
    normalizeAbsenceIndicator
        (normalizeAbsenceIndicator ("Tumor depth: Not specified".toList)) =
      normalizeAbsenceIndicator ("Tumor depth: Not specified".toList) :=
  normalize_absence_idempotent_no_newline ("Tumor depth: Not specified".toList)
    (by decide)

end Idea4rc
